import Mathlib

/-! DevOps info service (`app_go/main.go`): a shallow embedding and its properties.

The Go program is a small HTTP service with two routes.  Its functions are
translated one by one into Lean definitions of the same names.  The pieces of
the Go standard library the program calls (`strings`, `net`, `time`,
`net/http`, `encoding/json`) are modelled next to them, following the
behaviour of the library functions that the program relies on.

Conventions of the embedding:

* a Go `string` is a Lean `String`, read as a sequence of Unicode code points
  (Go strings holding valid UTF-8);
* the process environment (`runtime.GOOS`, `os.Getenv`, `os.ReadFile`,
  `os.Hostname`, the wall clock) is an explicit `World` value;
* an `http.ResponseWriter` is an explicit value threaded through the handlers,
  and a handler returns the writer it leaves behind together with the way it
  terminated (normal return or panic);
* `int64` values are `Int`; no operation of the program can overflow them.
-/

set_option autoImplicit false

namespace AppGo

/-! ## `strings` -/

/-- Go `unicode.IsSpace`: the Unicode White_Space code points. -/
def isSpace (c : Char) : Bool :=
  let n := c.toNat
  (0x09 ≤ n && n ≤ 0x0D) || n == 0x20 || n == 0x85 || n == 0xA0 || n == 0x1680 ||
  (0x2000 ≤ n && n ≤ 0x200A) || n == 0x2028 || n == 0x2029 || n == 0x202F ||
  n == 0x205F || n == 0x3000

/-- Go `strings.TrimLeftFunc` on the code points of a string. -/
def trimLeftFunc (f : Char → Bool) (s : List Char) : List Char :=
  s.dropWhile f

/-- Go `strings.TrimRightFunc` on the code points of a string. -/
def trimRightFunc (f : Char → Bool) (s : List Char) : List Char :=
  (s.reverse.dropWhile f).reverse

/-- Go `strings.TrimFunc`: drop the leading and the trailing code points that satisfy `f`. -/
def trimFunc (f : Char → Bool) (s : List Char) : List Char :=
  trimRightFunc f (trimLeftFunc f s)

/-- Go `strings.TrimSpace`. -/
def TrimSpace (s : String) : String :=
  ⟨trimFunc isSpace s.data⟩

/-- Go `strings.Trim(s, cutset)`: drop the leading and trailing code points contained in `cutset`. -/
def Trim (s cutset : String) : String :=
  ⟨trimFunc (fun c => cutset.data.contains c) s.data⟩

/-- Go `strings.HasPrefix`. -/
def HasPrefix (s pre : String) : Bool :=
  pre.data.isPrefixOf s.data

/-- Go `strings.TrimPrefix`. -/
def TrimPrefix (s pre : String) : String :=
  if HasPrefix s pre then ⟨s.data.drop pre.data.length⟩ else s

/-- Worker of `Split`: `cur` is the current piece in reverse, `skip` the number of code points
of an already matched separator still to be passed over. -/
def splitAux (sep : List Char) : List Char → List Char → Nat → List (List Char)
  | [], cur, _ => [cur.reverse]
  | _ :: cs, cur, skip + 1 => splitAux sep cs cur skip
  | c :: cs, cur, 0 =>
    if sep.isPrefixOf (c :: cs) then cur.reverse :: splitAux sep cs [] (sep.length - 1)
    else splitAux sep cs (c :: cur) 0

/-- Go `strings.Split(s, sep)`: the pieces of `s` between the successive (leftmost,
non-overlapping) occurrences of `sep`; with an empty `sep`, the code points of `s`. -/
def Split (s sep : String) : List String :=
  if sep.data = [] then s.data.map (fun c => String.mk [c])
  else (splitAux sep.data s.data [] 0).map String.mk

/-! ## `net` -/

/-- Go `strings.IndexByte` for an ASCII byte: position of the first occurrence. -/
def indexByte (s : List Char) (c : Char) : Option Nat :=
  match s with
  | [] => none
  | x :: xs => if x = c then some 0 else (indexByte xs c).map (· + 1)

/-- Go `strings.LastIndexByte` for an ASCII byte: position of the last occurrence. -/
def lastIndexByte (s : List Char) (c : Char) : Option Nat :=
  match s with
  | [] => none
  | x :: xs =>
    match lastIndexByte xs c with
    | some i => some (i + 1)
    | none => if x = c then some 0 else none

/-- The closing checks of `net.SplitHostPort`: no `[` from position `j` on, no `]` from
position `k` on; the port is what follows the last colon, at position `i`. -/
def splitHostPortTail (s : List Char) (host : List Char) (i j k : Nat) :
    Except String (String × String) :=
  if (indexByte (s.drop j) '[').isSome then .error "unexpected '[' in address"
  else if (indexByte (s.drop k) ']').isSome then .error "unexpected ']' in address"
  else .ok (⟨host⟩, ⟨s.drop (i + 1)⟩)

/-- Go `net.SplitHostPort`: split `host:port`, `host%zone:port`, `[host]:port` or
`[host%zone]:port` into host and port; the error carries the reason. -/
def SplitHostPort (hostport : String) : Except String (String × String) :=
  let s := hostport.data
  match lastIndexByte s ':' with
  | none => .error "missing port in address"
  | some i =>
    if s.head? = some '[' then
      match indexByte s ']' with
      | none => .error "missing ']' in address"
      | some close =>
        if close + 1 = s.length then .error "missing port in address"
        else if close + 1 = i then
          splitHostPortTail s ((s.take close).drop 1) i 1 (close + 1)
        else if s.get? (close + 1) = some ':' then .error "too many colons in address"
        else .error "missing port in address"
    else
      let host := s.take i
      if (indexByte host ':').isSome then .error "too many colons in address"
      else splitHostPortTail s host i 0 0

/-- Go `net.JoinHostPort`: a host containing a colon is taken for a literal IPv6 address
and bracketed. -/
def JoinHostPort (host port : String) : String :=
  if (indexByte host.data ':').isSome then "[" ++ host ++ "]:" ++ port
  else host ++ ":" ++ port

/-! ## `net/http`: headers and requests -/

/-- Go `http.Header`, a map from canonical header names to the list of their values. -/
abbrev Header := List (String × List String)

/-- Go `Header.Get`: the first value stored under `key`, or `""` when there is none.
The keys used by the program are already in canonical form. -/
def Header.Get (h : Header) (key : String) : String :=
  match h.lookup key with
  | some (v :: _) => v
  | _ => ""

/-- Go `Header.Set`: replace whatever is stored under `key` by the single value `value`. -/
def Header.Set (h : Header) (key value : String) : Header :=
  (key, [value]) :: h.filter (fun kv => kv.1 != key)

/-- The fields of `*http.Request` the program reads. -/
structure Request where
  /-- The member `r.Method`. -/
  Method : String
  /-- The member `r.URL.Path`. -/
  Path : String
  /-- The member `r.Header`. -/
  Header : Header
  /-- The member `r.RemoteAddr`. -/
  RemoteAddr : String

/-! ## `clientIP` -/

/-- Source function `clientIP`: the client address from the proxy header or `RemoteAddr`.
`parts[0]` always exists, `strings.Split` with a non-empty separator returning at least
one piece. -/
def clientIP (r : Request) : String :=
  let forwarded := r.Header.Get "X-Forwarded-For"
  if forwarded ≠ "" then
    let parts := Split forwarded ","
    TrimSpace (parts.getD 0 "")
  else
    match SplitHostPort r.RemoteAddr with
    | .ok (host, _) => host
    | .error _ => r.RemoteAddr

/-- Spec wording of the forwarded branch: the part of the header value before its first
comma (all of it when there is no comma), with surrounding whitespace trimmed. -/
def forwardedFirst (v : String) : String :=
  TrimSpace ⟨v.data.takeWhile (fun c => c != ',')⟩


/-! ## The process environment -/

/-- Wall-clock instant, in nanoseconds since the Unix epoch.  The program only handles
instants without a monotonic reading: `startTime` is `time.Now().UTC()`, and `UTC` strips
the monotonic reading, so `time.Since(startTime)` compares wall-clock readings. -/
abbrev Time := Int

/-- Go `time.Duration`: a signed count of nanoseconds held in an `int64`. -/
abbrev Duration := Int

/-- What the program observes of its environment while serving a request. -/
structure World where
  /-- The constant `runtime.GOOS`. -/
  GOOS : String
  /-- The constant `runtime.GOARCH`. -/
  GOARCH : String
  /-- The result of `runtime.NumCPU()`. -/
  NumCPU : Int
  /-- The result of `runtime.Version()`. -/
  Version : String
  /-- The result of `os.Hostname()`, `none` when it returns an error. -/
  Hostname : Option String
  /-- The result of `os.ReadFile(path)`, `none` when it returns an error. -/
  ReadFile : String → Option String
  /-- The environment variables: `none` for a variable that is not set. -/
  environ : String → Option String
  /-- The package variable `startTime`, fixed at process initialisation. -/
  startTime : Time
  /-- The successive readings of the wall clock, `time.Now()`. -/
  clock : Nat → Time
  /-- The number of clock readings taken so far. -/
  ticks : Nat
  /-- The rendering `t.Format("2006-01-02T15:04:05.000000-07:00")` of a UTC instant,
  taken from the standard library as it is. -/
  Format : Time → String
  /-- The lines handed to the process logger, oldest first. -/
  log : List String

/-- Go `os.Getenv`: the value of the variable, `""` when it is not set. -/
def World.Getenv (w : World) (key : String) : String :=
  (w.environ key).getD ""

/-- Go `time.Now()`: take the next reading of the wall clock. -/
def World.Now (w : World) : Time × World :=
  (w.clock w.ticks, { w with ticks := w.ticks + 1 })

/-- Go `log.Printf`, applied to the already formatted line. -/
def World.Printf (w : World) (line : String) : World :=
  { w with log := w.log ++ [line] }

/-! ## Host and platform -/

/-- Source function `platformName`: maps GOOS to a human-readable name. -/
def platformName (w : World) : String :=
  if w.GOOS = "linux" then "Linux"
  else if w.GOOS = "windows" then "Windows"
  else if w.GOOS = "darwin" then "Darwin"
  else w.GOOS

/-- The loop of `linuxPrettyName` over the lines of the file. -/
def linuxPrettyNameLines : List String → String
  | [] => ""
  | line :: rest =>
    let line := TrimSpace line
    if HasPrefix line "PRETTY_NAME=" then
      let value := TrimPrefix line "PRETTY_NAME="
      Trim value "\""
    else linuxPrettyNameLines rest

/-- Source function `linuxPrettyName`: reads PRETTY_NAME from /etc/os-release if available. -/
def linuxPrettyName (w : World) : String :=
  match w.ReadFile "/etc/os-release" with
  | none => ""
  | some data => linuxPrettyNameLines (Split data "\n")

/-- Source function `platformVersion`: attempts to return a friendly OS version. -/
def platformVersion (w : World) : String :=
  if w.GOOS = "linux" then
    let pretty := linuxPrettyName w
    if pretty ≠ "" then pretty else w.GOOS
  else if w.GOOS = "windows" then
    let osName := w.Getenv "OS"
    if osName ≠ "" then osName else w.GOOS
  else w.GOOS

/-- Spec wording of the PRETTY_NAME key: the text after `PRETTY_NAME=` on the first line of
the file that, once trimmed, starts with it; `none` when the file has no such line. -/
def prettyNameKey (data : String) : Option String :=
  (((Split data "\n").map TrimSpace).find? (fun l => HasPrefix l "PRETTY_NAME=")).map
    (fun l => ⟨l.data.drop 12⟩)

/-- Spec wording of unquoting: the surrounding double quotes removed. -/
def unquote (v : String) : String :=
  Trim v "\""

/-! ## `float64` arithmetic

`Duration.Seconds` computes in `float64`.  A finite binary64 value is held as the dyadic
rational `m * 2 ^ e` it denotes, and every operation returns the exact result rounded to
the nearest value with a 53-bit significand, ties to even, as IEEE 754 prescribes.  The
exponent range is not bounded: the magnitudes met in `getUptime` (the non-zero ones lie
between `1e-9` and `2 ^ 63 / 1e9`) are far from the overflow and subnormal thresholds. -/

/-- A finite `float64`, denoting `m * 2 ^ e`. -/
structure Float64 where
  /-- The signed significand. -/
  m : Int
  /-- The binary exponent. -/
  e : Int
  deriving DecidableEq, Repr

/-- Worker of `bitLen`, recursing on a bound for the number of digits. -/
def bitLenAux : Nat → Nat → Nat
  | 0, _ => 0
  | bound + 1, n => if n = 0 then 0 else bitLenAux bound (n / 2) + 1

/-- The number of binary digits of `n`, Go `bits.Len`: `2 ^ (bitLen n - 1) ≤ n < 2 ^ bitLen n`
for `n ≠ 0`. -/
def bitLen (n : Nat) : Nat :=
  bitLenAux n n

/-- The integer nearest to `a / b`, a tie going to the even one. -/
def roundHalfEven (a b : Nat) : Nat :=
  let q := a / b
  let r := a % b
  if 2 * r < b then q
  else if b < 2 * r then q + 1
  else if q % 2 = 0 then q else q + 1

/-- The binade of the positive rational `a / b`: the `E` with `2 ^ E ≤ a / b < 2 ^ (E + 1)`. -/
def binade (a b : Nat) : Int :=
  if b * 2 ^ bitLen a ≤ a * 2 ^ bitLen b then (bitLen a : Int) - bitLen b
  else (bitLen a : Int) - bitLen b - 1

/-- Numerator and denominator of `(a / b) * 2 ^ s`. -/
def scale (a b : Nat) (s : Int) : Nat × Nat :=
  if 0 ≤ s then (a * 2 ^ s.toNat, b) else (a, b * 2 ^ (-s).toNat)

/-- The `float64` nearest to the positive rational `a / b`: with `E` its binade, the
significand is `a / b / 2 ^ (E - 52)` rounded to an integer. -/
def roundPos (a b : Nat) : Float64 :=
  let e := binade a b - 52
  ⟨roundHalfEven (scale a b (-e)).1 (scale a b (-e)).2, e⟩

/-- The `float64` nearest to the rational `(a / b) * 2 ^ s`.  A zero denominator, which
stands for a division by zero, does not occur in the program and is mapped to zero. -/
def Float64.round (a : Int) (b : Nat) (s : Int) : Float64 :=
  if a = 0 ∨ b = 0 then ⟨0, 0⟩
  else
    let r := roundPos (scale a.natAbs b s).1 (scale a.natAbs b s).2
    ⟨a.sign * r.m, r.e⟩

/-- The rational number a `float64` denotes. -/
def Float64.val (x : Float64) : ℚ :=
  (x.m : ℚ) * (2 : ℚ) ^ x.e

/-- The rational number `(a / b) * 2 ^ s` that `Float64.round a b s` rounds. -/
def exactVal (a : Int) (b : Nat) (s : Int) : ℚ :=
  (a : ℚ) / (b : ℚ) * (2 : ℚ) ^ s

/-- Go conversion `float64(i)` of an integer. -/
def Float64.ofInt (i : Int) : Float64 :=
  Float64.round i 1 0

/-- Go `x + y` on `float64`. -/
def Float64.add (x y : Float64) : Float64 :=
  let e := min x.e y.e
  Float64.round (x.m * 2 ^ (x.e - e).toNat + y.m * 2 ^ (y.e - e).toNat) 1 e

/-- Go `x / y` on `float64`. -/
def Float64.div (x y : Float64) : Float64 :=
  Float64.round (x.m * y.m.sign) y.m.natAbs (x.e - y.e)

/-- Go conversion `int64(x)` of a `float64` within the `int64` range: the fraction is
discarded (truncation toward zero). -/
def Float64.toInt64 (x : Float64) : Int :=
  if 0 ≤ x.e then x.m * 2 ^ x.e.toNat else Int.tdiv x.m (2 ^ (-x.e).toNat)

/-! ## `time` -/

/-- Go `minDuration`. -/
def minDuration : Duration := -(2 ^ 63)

/-- Go `maxDuration`. -/
def maxDuration : Duration := 2 ^ 63 - 1

/-- Go `Time.Sub` on wall-clock instants: the difference, saturated to the range of
`Duration`. -/
def Time.Sub (t u : Time) : Duration :=
  if t - u < minDuration then minDuration
  else if maxDuration < t - u then maxDuration
  else t - u

/-- Go `Duration.Seconds`:
`sec := d / Second; nsec := d % Second; return float64(sec) + float64(nsec)/1e9`. -/
def Duration.Seconds (d : Duration) : Float64 :=
  let sec := Int.tdiv d 1000000000
  let nsec := Int.tmod d 1000000000
  Float64.add (Float64.ofInt sec) (Float64.div (Float64.ofInt nsec) (Float64.ofInt 1000000000))

/-- Go `time.Since(t)` for a `t` without monotonic reading, the clock reading `now` being
given: `Now().Sub(t)`. -/
def Since (now t : Time) : Duration :=
  Time.Sub now t

/-! ## Data model -/

/-- Source type `ServiceInfo`. -/
structure ServiceInfo where
  Name : String
  Version : String
  Description : String
  Framework : String
  deriving DecidableEq, Repr

/-- Source type `SystemInfo`. -/
structure SystemInfo where
  Hostname : String
  Platform : String
  PlatformVersion : String
  Architecture : String
  CPUCount : Int
  PythonVersion : String
  deriving DecidableEq, Repr

/-- Source type `UptimeInfo`. -/
structure UptimeInfo where
  Seconds : Int
  Human : String
  deriving DecidableEq, Repr

/-- Source type `RequestInfo`. -/
structure RequestInfo where
  ClientIP : String
  UserAgent : String
  Method : String
  Path : String
  deriving DecidableEq, Repr

/-- Source type `EndpointInfo`. -/
structure EndpointInfo where
  Path : String
  Method : String
  Description : String
  deriving DecidableEq, Repr

/-- Source type `RootResponse`. -/
structure RootResponse where
  Service : ServiceInfo
  System : SystemInfo
  Runtime : UptimeInfo
  Request : RequestInfo
  Endpoints : List EndpointInfo
  deriving DecidableEq, Repr

/-- Source type `HealthResponse`. -/
structure HealthResponse where
  Status : String
  Timestamp : String
  UptimeSeconds : Int
  deriving DecidableEq, Repr

/-- Source constant `serviceName`. -/
def serviceName : String := "devops-info-service"

/-- Source constant `serviceVersion`. -/
def serviceVersion : String := "1.0.0"

/-- Source constant `serviceDescription`. -/
def serviceDescription : String := "DevOps course info service"

/-- Source constant `serviceFramework`. -/
def serviceFramework : String := "Go net/http"

/-- Go constant `http.MethodGet`. -/
def MethodGet : String := "GET"

/-- Source variable `endpoints`: a static list used to mirror the Python app output. -/
def endpoints : List EndpointInfo :=
  [ { Path := "/", Method := MethodGet, Description := "Service information." },
    { Path := "/health", Method := MethodGet, Description := "Health check endpoint." } ]

/-- Source function `getServiceInfo`: returns static service metadata. -/
def getServiceInfo : ServiceInfo :=
  { Name := serviceName, Version := serviceVersion, Description := serviceDescription,
    Framework := serviceFramework }

/-- Source function `getSystemInfo`: returns host and runtime information. -/
def getSystemInfo (w : World) : SystemInfo :=
  let hostname := match w.Hostname with
    | some h => h
    | none => "unknown"
  { Hostname := hostname, Platform := platformName w, PlatformVersion := platformVersion w,
    Architecture := w.GOARCH, CPUCount := w.NumCPU, PythonVersion := w.Version }

/-- Source function `getUptime`, with the package variable `startTime` and the clock
reading of `time.Since` as explicit inputs.  `%d` prints an integer in decimal. -/
def getUptime (startTime now : Time) : UptimeInfo :=
  let seconds := (Since now startTime).Seconds.toInt64
  let hours := Int.tdiv seconds 3600
  let minutes := Int.tdiv (Int.tmod seconds 3600) 60
  { Seconds := seconds, Human := toString hours ++ " hours, " ++ toString minutes ++ " minutes" }

/-- Source function `getRequestInfo`: captures minimal request metadata. -/
def getRequestInfo (r : Request) : RequestInfo :=
  { ClientIP := clientIP r, UserAgent := r.Header.Get "User-Agent", Method := r.Method,
    Path := r.Path }

/-- Source function `listEndpoints`: returns the advertised endpoints for the root response. -/
def listEndpoints : List EndpointInfo :=
  endpoints

/-! ## `encoding/json`

The encoder of `json.NewEncoder(w).Encode(v)` for the types the program sends: struct fields
in declaration order under their `json` tags, the keys of a `map[string]string` in sorted
order, strings escaped as Go (1.22 and later) does with HTML escaping on, and a newline
after the value. -/

/-- The hexadecimal digit of a value below 16, from Go `"0123456789abcdef"`. -/
def hexDigit (n : Nat) : Char :=
  "0123456789abcdef".data.getD n '0'

/-- The escaped form of one code point inside a JSON string. -/
def escapeChar (c : Char) : List Char :=
  if c = '\\' then ['\\', '\\']
  else if c = '"' then ['\\', '"']
  else if c.toNat = 0x08 then ['\\', 'b']
  else if c.toNat = 0x0C then ['\\', 'f']
  else if c = '\n' then ['\\', 'n']
  else if c = '\r' then ['\\', 'r']
  else if c = '\t' then ['\\', 't']
  else if c.toNat < 0x20 ∨ c = '<' ∨ c = '>' ∨ c = '&' then
    ['\\', 'u', '0', '0', hexDigit (c.toNat / 16), hexDigit (c.toNat % 16)]
  else if c.toNat = 0x2028 then ['\\', 'u', '2', '0', '2', '8']
  else if c.toNat = 0x2029 then ['\\', 'u', '2', '0', '2', '9']
  else [c]

/-- The JSON text of a Go string. -/
def encodeString (s : String) : String :=
  "\"" ++ ⟨s.data.flatMap escapeChar⟩ ++ "\""

/-- The JSON text of a Go integer. -/
def encodeInt (i : Int) : String :=
  toString i

/-- Join the encoded members of an object or the elements of an array with commas. -/
def joinComma : List String → String
  | [] => ""
  | [x] => x
  | x :: y :: rest => x ++ "," ++ joinComma (y :: rest)

/-- The JSON text of an object with the given members, already encoded. -/
def encodeObject (members : List (String × String)) : String :=
  "\x7b" ++ joinComma (members.map (fun kv => encodeString kv.1 ++ ":" ++ kv.2)) ++ "\x7d"

/-- Go `a < b` on strings, the lexicographic order (on valid UTF-8 the order of the bytes
is the order of the code points). -/
def lessChars : List Char → List Char → Bool
  | _, [] => false
  | [], _ :: _ => true
  | a :: as, b :: bs => a.toNat < b.toNat || (a.toNat == b.toNat && lessChars as bs)

/-- Insert a member into a list of members sorted by key. -/
def insertByKey (kv : String × String) : List (String × String) → List (String × String)
  | [] => [kv]
  | x :: xs => if lessChars kv.1.data x.1.data then kv :: x :: xs else x :: insertByKey kv xs

/-- Sort the members of a map by key, as the encoder does. -/
def sortByKey : List (String × String) → List (String × String)
  | [] => []
  | x :: xs => insertByKey x (sortByKey xs)

/-- The JSON text of a `map[string]string`. -/
def encodeMap (m : List (String × String)) : String :=
  encodeObject ((sortByKey m).map (fun kv => (kv.1, encodeString kv.2)))

/-- The JSON text of a `ServiceInfo`. -/
def ServiceInfo.encode (v : ServiceInfo) : String :=
  encodeObject [("name", encodeString v.Name), ("version", encodeString v.Version),
    ("description", encodeString v.Description), ("framework", encodeString v.Framework)]

/-- The JSON text of a `SystemInfo`. -/
def SystemInfo.encode (v : SystemInfo) : String :=
  encodeObject [("hostname", encodeString v.Hostname), ("platform", encodeString v.Platform),
    ("platform_version", encodeString v.PlatformVersion),
    ("architecture", encodeString v.Architecture), ("cpu_count", encodeInt v.CPUCount),
    ("python_version", encodeString v.PythonVersion)]

/-- The JSON text of an `UptimeInfo`. -/
def UptimeInfo.encode (v : UptimeInfo) : String :=
  encodeObject [("seconds", encodeInt v.Seconds), ("human", encodeString v.Human)]

/-- The JSON text of a `RequestInfo`. -/
def RequestInfo.encode (v : RequestInfo) : String :=
  encodeObject [("client_ip", encodeString v.ClientIP), ("user_agent", encodeString v.UserAgent),
    ("method", encodeString v.Method), ("path", encodeString v.Path)]

/-- The JSON text of an `EndpointInfo`. -/
def EndpointInfo.encode (v : EndpointInfo) : String :=
  encodeObject [("path", encodeString v.Path), ("method", encodeString v.Method),
    ("description", encodeString v.Description)]

/-- The JSON text of a `RootResponse`. -/
def RootResponse.encode (v : RootResponse) : String :=
  encodeObject [("service", v.Service.encode), ("system", v.System.encode),
    ("runtime", v.Runtime.encode), ("request", v.Request.encode),
    ("endpoints", "[" ++ joinComma (v.Endpoints.map EndpointInfo.encode) ++ "]")]

/-- The JSON text of a `HealthResponse`. -/
def HealthResponse.encode (v : HealthResponse) : String :=
  encodeObject [("status", encodeString v.Status), ("timestamp", encodeString v.Timestamp),
    ("uptime_seconds", encodeInt v.UptimeSeconds)]

/-- The values the program passes to `writeJSON` as `payload any`. -/
inductive Payload where
  | root (v : RootResponse)
  | health (v : HealthResponse)
  | dict (m : List (String × String))
  deriving DecidableEq, Repr

/-- The bytes `json.NewEncoder(w).Encode(payload)` writes: the JSON text and a newline. -/
def Payload.encode : Payload → String
  | .root v => v.encode ++ "\n"
  | .health v => v.encode ++ "\n"
  | .dict m => encodeMap m ++ "\n"

/-! ## `net/http`: the response writer and handlers -/

/-- The state of an `http.ResponseWriter`, following the contract of the interface: the
status line and headers are fixed by the first `WriteHeader` (or implicitly by the first
`Write`), later calls to `WriteHeader` and later changes of the header map have no effect
on them, and the body is the concatenation of what is written. -/
structure ResponseWriter where
  /-- The header map returned by `w.Header()`. -/
  header : Header
  /-- Whether the status line and headers have been written. -/
  wroteHeader : Bool
  /-- The status code written, meaningful once `wroteHeader` holds. -/
  status : Int
  /-- The headers written with the status line. -/
  sent : Header
  /-- The body written so far. -/
  body : String
  deriving DecidableEq, Repr

/-- The writer a handler receives: nothing set, nothing written. -/
def ResponseWriter.fresh : ResponseWriter :=
  { header := [], wroteHeader := false, status := 0, sent := [], body := "" }

/-- Go `w.Header().Set(key, value)`. -/
def ResponseWriter.SetHeader (w : ResponseWriter) (key value : String) : ResponseWriter :=
  { w with header := w.header.Set key value }

/-- Go `w.WriteHeader(code)`: only the first call counts. -/
def ResponseWriter.WriteHeader (w : ResponseWriter) (code : Int) : ResponseWriter :=
  if w.wroteHeader then w
  else { w with wroteHeader := true, status := code, sent := w.header }

/-- Go `w.Write(data)`: writes the header with status 200 first if none was written. -/
def ResponseWriter.Write (w : ResponseWriter) (data : String) : ResponseWriter :=
  let w := if w.wroteHeader then w else w.WriteHeader 200
  { w with body := w.body ++ data }

/-- Go constant `http.StatusOK`. -/
def StatusOK : Int := 200

/-- Go constant `http.StatusNotFound`. -/
def StatusNotFound : Int := 404

/-- Go constant `http.StatusInternalServerError`. -/
def StatusInternalServerError : Int := 500

/-- What a handler call leaves behind: the environment, the response writer, and the value
it panicked with (as `%v` prints it), `none` when it returned normally. -/
structure Outcome where
  world : World
  w : ResponseWriter
  panic : Option String

/-- Go `http.Handler`: serves a request by acting on the response writer; it may read the
clock and log, and it may panic. -/
abbrev Handler := World → ResponseWriter → Request → Outcome

/-- Source function `writeJSON`: serializes a payload with the given status code.  Encoding
the payloads of this program cannot fail, so the branch logging an encode error is not
taken. -/
def writeJSON (w : ResponseWriter) (status : Int) (payload : Payload) : ResponseWriter :=
  let w := w.SetHeader "Content-Type" "application/json"
  let w := w.WriteHeader status
  w.Write payload.encode

/-- Source function `mainHandler`: serves GET /. -/
def mainHandler : Handler := fun wd w r =>
  let system := getSystemInfo wd
  let (now, wd) := wd.Now
  let payload : RootResponse :=
    { Service := getServiceInfo, System := system, Runtime := getUptime wd.startTime now,
      Request := getRequestInfo r, Endpoints := listEndpoints }
  { world := wd, w := writeJSON w StatusOK (.root payload), panic := none }

/-- Source function `healthHandler`: serves GET /health.  The clock is read twice, for the
timestamp and then for the uptime. -/
def healthHandler : Handler := fun wd w _ =>
  let (t, wd) := wd.Now
  let (now, wd) := wd.Now
  let payload : HealthResponse :=
    { Status := "healthy", Timestamp := wd.Format t,
      UptimeSeconds := (getUptime wd.startTime now).Seconds }
  { world := wd, w := writeJSON w StatusOK (.health payload), panic := none }

/-- Source function `notFound`: returns a JSON 404. -/
def notFound : Handler := fun wd w _ =>
  { world := wd,
    w := writeJSON w StatusNotFound
      (.dict [("error", "Not Found"), ("message", "Endpoint does not exist")]),
    panic := none }

/-- Source function `router`: dispatches requests to handlers. -/
def router : Handler := fun wd w r =>
  if r.Path = "/" ∧ r.Method = MethodGet then mainHandler wd w r
  else if r.Path = "/health" ∧ r.Method = MethodGet then healthHandler wd w r
  else notFound wd w r

/-- Source function `recoverMiddleware`: converts panics into JSON 500 responses.  The
deferred function runs when `next` has returned or panicked; `recover()` yields the value
of the panic, which is not nil. -/
def recoverMiddleware (next : Handler) : Handler := fun wd w r =>
  let wd := wd.Printf ("Request: " ++ r.Method ++ " " ++ r.Path)
  let out := next wd w r
  match out.panic with
  | none => out
  | some err =>
    { world := out.world.Printf ("panic: " ++ err),
      w := writeJSON out.w StatusInternalServerError
        (.dict [("error", "Internal Server Error"), ("message", "An unexpected error occurred")]),
      panic := none }

/-- What `main` hands to `http.ListenAndServe`. -/
structure Listener where
  /-- The listening address. -/
  addr : String
  /-- The handler serving every request. -/
  handler : Handler

/-- Source function `main`, up to the call of `http.ListenAndServe`: the environment after
the start-up log line, and the address and handler passed to the server. -/
def main (wd : World) : World × Listener :=
  let host := wd.Getenv "HOST"
  let host := if host = "" then "0.0.0.0" else host
  let port := wd.Getenv "PORT"
  let port := if port = "" then "5000" else port
  let addr := JoinHostPort host port
  (wd.Printf ("Application starting on " ++ addr),
    { addr := addr, handler := recoverMiddleware router })

/-! ## Sample inputs for the concrete instances -/

/-- A sample environment: a Linux host started at the epoch, whose clock reads 3725 seconds
and then advances by one second a reading. -/
def sampleWorld : World :=
  { GOOS := "linux", GOARCH := "amd64", NumCPU := 4, Version := "go1.24.0",
    Hostname := some "web-1",
    ReadFile := fun path =>
      if path = "/etc/os-release" then some "NAME=\"Ubuntu\"\nPRETTY_NAME=\"Ubuntu 24.04 LTS\"\n"
      else none,
    environ := fun _ => none,
    startTime := 0,
    clock := fun n => 3725000000000 + 1000000000 * n,
    ticks := 0,
    Format := fun _ => "1970-01-01T01:02:05.000000+00:00",
    log := [] }

/-- A sample request with the given method, path, headers and peer address. -/
def sampleRequest (method path : String) (header : Header) (remoteAddr : String) : Request :=
  { Method := method, Path := path, Header := header, RemoteAddr := remoteAddr }

/-- The response every unregistered method and path pair receives. -/
def notFoundResponse : ResponseWriter :=
  { header := [("Content-Type", ["application/json"])],
    wroteHeader := true,
    status := 404,
    sent := [("Content-Type", ["application/json"])],
    body := "\x7b\"error\":\"Not Found\",\"message\":\"Endpoint does not exist\"\x7d\n" }

/-- A sample handler that commits the status line with code 200 and then panics. -/
def commitThenPanic : Handler := fun wd w _ =>
  { world := wd, w := w.WriteHeader 200, panic := some "boom" }

/-- A sample handler that panics before touching the response writer. -/
def panicAtOnce : Handler := fun wd w _ =>
  { world := wd, w := w, panic := some "boom" }

/-- The sample environment with the variable `HOST` set to `host` and no other variable. -/
def worldWithHost (host : String) : World :=
  { sampleWorld with environ := fun key => if key = "HOST" then some host else none }

/-- The sample environment with the given content of `/etc/os-release`, `none` for a file
that cannot be read. -/
def worldWithOsRelease (content : Option String) : World :=
  { sampleWorld with ReadFile := fun path => if path = "/etc/os-release" then content else none }

/-- Spec wording of a configuration variable with a default: the value of the variable, or
the default when the variable is not set. -/
def valueOrDefault (v : Option String) (dflt : String) : String :=
  v.getD dflt

/-- The reading of a configuration variable the program makes: the value of the variable,
or the default when the variable is not set or is set to the empty string. -/
def nonEmptyOrDefault (v : Option String) (dflt : String) : String :=
  match v with
  | some s => if s = "" then dflt else s
  | none => dflt

/-- Spec wording of the human-readable uptime for `s` whole seconds: the decimal rendering
of `floor(s / 3600)`, then `" hours, "`, then the decimal rendering of
`floor((s mod 3600) / 60)`, then `" minutes"`. -/
def humanOf (s : Nat) : String :=
  toString (s / 3600) ++ " hours, " ++ toString (s % 3600 / 60) ++ " minutes"

/-! ## Properties of `clientIP` -/

theorem splitAux_comma_head (s cur : List Char) :
    (splitAux [','] s cur 0).head? = some (cur.reverse ++ s.takeWhile (fun c => c != ',')) := by
  induction s generalizing cur with
  | nil => simp [splitAux]
  | cons c cs ih =>
    by_cases hc : c = ','
    · subst hc
      simp [splitAux, List.isPrefixOf]
    · have h1 : (',' == c) = false := by
        simp only [beq_eq_false_iff_ne, ne_eq]
        exact fun h => hc h.symm
      have h2 : (c != ',') = true := by simp [hc]
      simp [splitAux, List.isPrefixOf, h1, h2, ih]

theorem Split_comma_pos (v : String) : 0 < (Split v ",").length := by
  have h := splitAux_comma_head v.data []
  have hne : splitAux [','] v.data [] 0 ≠ [] := by
    intro h0
    rw [h0] at h
    simp at h
  have hsep : ("," : String).data = [','] := rfl
  simp only [Split, hsep, List.cons_ne_self, if_false, List.length_map]
  exact List.length_pos.mpr hne

theorem Split_comma_first (v : String) :
    (Split v ",").getD 0 "" = ⟨v.data.takeWhile (fun c => c != ',')⟩ := by
  have h := splitAux_comma_head v.data []
  have hsep : ("," : String).data = [','] := rfl
  simp only [Split, hsep, List.cons_ne_self, if_false]
  cases hs : splitAux [','] v.data [] 0 with
  | nil => rw [hs] at h; simp at h
  | cons p ps =>
    rw [hs] at h
    simp at h
    simp [h]

theorem clientIP_of_forwarded (r : Request) (h : r.Header.Get "X-Forwarded-For" ≠ "") :
    clientIP r = forwardedFirst (r.Header.Get "X-Forwarded-For") := by
  simp only [clientIP, forwardedFirst, h, ne_eq, not_false_eq_true, if_true, Split_comma_first]

theorem clientIP_of_not_forwarded (r : Request) (h : r.Header.Get "X-Forwarded-For" = "") :
    clientIP r = match SplitHostPort r.RemoteAddr with
      | .ok (host, _) => host
      | .error _ => r.RemoteAddr := by
  simp only [clientIP, h, ne_eq, not_true_eq_false, if_false]

/-! ## Properties of `platformVersion` -/

theorem linuxPrettyNameLines_eq (lines : List String) :
    linuxPrettyNameLines lines =
      match ((lines.map TrimSpace).find? (fun l => HasPrefix l "PRETTY_NAME=")).map
          (fun l => (⟨l.data.drop 12⟩ : String)) with
      | some v => unquote v
      | none => "" := by
  induction lines with
  | nil => simp [linuxPrettyNameLines]
  | cons line rest ih =>
    by_cases hp : HasPrefix (TrimSpace line) "PRETTY_NAME=" = true
    · have hlen : ("PRETTY_NAME=" : String).data.length = 12 := rfl
      simp [linuxPrettyNameLines, hp, TrimPrefix, unquote, hlen]
    · simp only [Bool.not_eq_true] at hp
      simp [linuxPrettyNameLines, hp, ih]

theorem linuxPrettyName_eq (w : World) :
    linuxPrettyName w =
      match (w.ReadFile "/etc/os-release").bind prettyNameKey with
      | some v => unquote v
      | none => "" := by
  unfold linuxPrettyName
  cases h : w.ReadFile "/etc/os-release" with
  | none => simp
  | some data => simp [linuxPrettyNameLines_eq, prettyNameKey]

/-! ## Properties of `router` -/

theorem contentType_json :
    Header.Get [("Content-Type", ["application/json"])] "Content-Type" = "application/json" := by
  decide

theorem writeJSON_fresh (status : Int) (payload : Payload) :
    writeJSON ResponseWriter.fresh status payload =
      { header := [("Content-Type", ["application/json"])],
        wroteHeader := true,
        status := status,
        sent := [("Content-Type", ["application/json"])],
        body := payload.encode } := by
  simp [writeJSON, ResponseWriter.fresh, ResponseWriter.SetHeader, ResponseWriter.WriteHeader,
    ResponseWriter.Write, Header.Set]

/-- C1: for any method and path other than GET on "/" or "/health", `router` answers a fresh
response writer with status 404, content type application/json and the body
`{"error":"Not Found","message":"Endpoint does not exist"}` (followed by the newline the
encoder appends), without panicking; the response is the same value `notFoundResponse` for
all such requests, so POST "/" and GET "/nonexistent" get the same response. -/
theorem router_not_found (wd : World) (r : Request)
    (h : ¬ (r.Method = "GET" ∧ (r.Path = "/" ∨ r.Path = "/health"))) :
    (router wd ResponseWriter.fresh r).panic = none ∧
    (router wd ResponseWriter.fresh r).w = notFoundResponse ∧
    (router wd ResponseWriter.fresh r).w.status = 404 ∧
    (router wd ResponseWriter.fresh r).w.sent.Get "Content-Type" = "application/json" ∧
    (router wd ResponseWriter.fresh r).w.body =
      "\x7b\"error\":\"Not Found\",\"message\":\"Endpoint does not exist\"\x7d\n" ∧
    (router wd ResponseWriter.fresh r).w.body =
      (Payload.dict [("error", "Not Found"), ("message", "Endpoint does not exist")]).encode ∧
    (router wd ResponseWriter.fresh r).w =
      (router wd ResponseWriter.fresh (sampleRequest "GET" "/nonexistent" [] "")).w := by
  have h1 : ¬ (r.Path = "/" ∧ r.Method = MethodGet) := fun hc => h ⟨hc.2, Or.inl hc.1⟩
  have h2 : ¬ (r.Path = "/health" ∧ r.Method = MethodGet) := fun hc => h ⟨hc.2, Or.inr hc.1⟩
  have hr : router wd ResponseWriter.fresh r = notFound wd ResponseWriter.fresh r := by
    unfold router
    rw [if_neg h1, if_neg h2]
  have hw : (notFound wd ResponseWriter.fresh r).w = notFoundResponse := by
    simp only [notFound]
    decide
  have hs : router wd ResponseWriter.fresh (sampleRequest "GET" "/nonexistent" [] "") =
      notFound wd ResponseWriter.fresh (sampleRequest "GET" "/nonexistent" [] "") := by
    have e1 : ¬ ((sampleRequest "GET" "/nonexistent" [] "").Path = "/" ∧
        (sampleRequest "GET" "/nonexistent" [] "").Method = MethodGet) := by decide
    have e2 : ¬ ((sampleRequest "GET" "/nonexistent" [] "").Path = "/health" ∧
        (sampleRequest "GET" "/nonexistent" [] "").Method = MethodGet) := by decide
    unfold router
    rw [if_neg e1, if_neg e2]
  have hw2 : (notFound wd ResponseWriter.fresh (sampleRequest "GET" "/nonexistent" [] "")).w =
      notFoundResponse := by
    simp only [notFound]
    decide
  rw [hr, hs, hw2]
  refine ⟨rfl, hw, ?_, ?_, ?_, ?_, hw⟩
  · rw [hw]; decide
  · rw [hw]; decide
  · rw [hw]; decide
  · rw [hw]; decide

theorem router_not_found_witness :
    ¬ ((sampleRequest "POST" "/" [] "192.168.1.5:54321").Method = "GET" ∧
        ((sampleRequest "POST" "/" [] "192.168.1.5:54321").Path = "/" ∨
          (sampleRequest "POST" "/" [] "192.168.1.5:54321").Path = "/health")) ∧
    (router sampleWorld ResponseWriter.fresh
        (sampleRequest "POST" "/" [] "192.168.1.5:54321")).w.status = 404 ∧
    (router sampleWorld ResponseWriter.fresh (sampleRequest "POST" "/" [] "192.168.1.5:54321")).w =
      (router sampleWorld ResponseWriter.fresh (sampleRequest "GET" "/nonexistent" [] "")).w :=
  ⟨by decide,
   (router_not_found sampleWorld (sampleRequest "POST" "/" [] "192.168.1.5:54321")
      (by decide)).2.2.1,
   (router_not_found sampleWorld (sampleRequest "POST" "/" [] "192.168.1.5:54321")
      (by decide)).2.2.2.2.2.2⟩

/-- C2: for every GET request on "/health", whatever its headers and peer address, `router`
answers a fresh response writer with status 200 and content type application/json, without
panicking, and the body is the encoding of a HealthResponse whose status is "healthy" and
whose uptime_seconds is the `Seconds` that `getUptime` computes from the clock reading the
handler takes for it (the second one, after the timestamp's). -/
theorem router_health (wd : World) (r : Request)
    (hm : r.Method = "GET") (hp : r.Path = "/health") :
    (router wd ResponseWriter.fresh r).panic = none ∧
    (router wd ResponseWriter.fresh r).w.wroteHeader = true ∧
    (router wd ResponseWriter.fresh r).w.status = 200 ∧
    (router wd ResponseWriter.fresh r).w.sent.Get "Content-Type" = "application/json" ∧
    (router wd ResponseWriter.fresh r).w.body =
      (Payload.health
        { Status := "healthy",
          Timestamp := wd.Format (wd.clock wd.ticks),
          UptimeSeconds := (getUptime wd.startTime (wd.clock (wd.ticks + 1))).Seconds }).encode := by
  have h1 : ¬ (r.Path = "/" ∧ r.Method = MethodGet) := by
    rw [hp]; exact fun hc => absurd hc.1 (by decide)
  have h2 : r.Path = "/health" ∧ r.Method = MethodGet := ⟨hp, hm⟩
  have hr : router wd ResponseWriter.fresh r = healthHandler wd ResponseWriter.fresh r := by
    unfold router
    rw [if_neg h1, if_pos h2]
  have hw : (healthHandler wd ResponseWriter.fresh r).w =
      { header := [("Content-Type", ["application/json"])],
        wroteHeader := true,
        status := 200,
        sent := [("Content-Type", ["application/json"])],
        body := (Payload.health
          { Status := "healthy",
            Timestamp := wd.Format (wd.clock wd.ticks),
            UptimeSeconds :=
              (getUptime wd.startTime (wd.clock (wd.ticks + 1))).Seconds }).encode } := by
    simp only [healthHandler, World.Now, writeJSON_fresh, StatusOK]
  rw [hr, hw]
  exact ⟨rfl, rfl, rfl, contentType_json, rfl⟩

theorem router_health_witness :
    (sampleRequest "GET" "/health" [("X-Forwarded-For", ["203.0.113.7"])] "10.0.0.1:80").Method
      = "GET" ∧
    (sampleRequest "GET" "/health" [("X-Forwarded-For", ["203.0.113.7"])] "10.0.0.1:80").Path
      = "/health" ∧
    (router sampleWorld ResponseWriter.fresh
      (sampleRequest "GET" "/health" [("X-Forwarded-For", ["203.0.113.7"])] "10.0.0.1:80")).w.status
      = 200 :=
  ⟨rfl, rfl,
   (router_health sampleWorld
      (sampleRequest "GET" "/health" [("X-Forwarded-For", ["203.0.113.7"])] "10.0.0.1:80")
      rfl rfl).2.2.1⟩

/-- C3: for every GET request on "/", whatever its headers, its peer address and the clock,
`router` answers a fresh response writer with status 200, without panicking, and the body is
the encoding of a RootResponse whose `Endpoints` is exactly the two-element list
[{"/", "GET", "Service information."}, {"/health", "GET", "Health check endpoint."}], in
this order. -/
theorem router_root_endpoints (wd : World) (r : Request)
    (hm : r.Method = "GET") (hp : r.Path = "/") :
    (router wd ResponseWriter.fresh r).panic = none ∧
    (router wd ResponseWriter.fresh r).w.status = 200 ∧
    (router wd ResponseWriter.fresh r).w.sent.Get "Content-Type" = "application/json" ∧
    (router wd ResponseWriter.fresh r).w.body =
      (Payload.root
        { Service := getServiceInfo,
          System := getSystemInfo wd,
          Runtime := getUptime wd.startTime (wd.clock wd.ticks),
          Request := getRequestInfo r,
          Endpoints :=
            [ { Path := "/", Method := "GET", Description := "Service information." },
              { Path := "/health", Method := "GET",
                Description := "Health check endpoint." } ] }).encode := by
  have h1 : r.Path = "/" ∧ r.Method = MethodGet := ⟨hp, hm⟩
  have hr : router wd ResponseWriter.fresh r = mainHandler wd ResponseWriter.fresh r := by
    unfold router
    rw [if_pos h1]
  have hw : (mainHandler wd ResponseWriter.fresh r).w =
      { header := [("Content-Type", ["application/json"])],
        wroteHeader := true,
        status := 200,
        sent := [("Content-Type", ["application/json"])],
        body := (Payload.root
          { Service := getServiceInfo,
            System := getSystemInfo wd,
            Runtime := getUptime wd.startTime (wd.clock wd.ticks),
            Request := getRequestInfo r,
            Endpoints := listEndpoints }).encode } := by
    simp only [mainHandler, World.Now, writeJSON_fresh, StatusOK]
  rw [hr, hw]
  exact ⟨rfl, rfl, contentType_json, rfl⟩

theorem router_root_endpoints_witness :
    (sampleRequest "GET" "/" [("User-Agent", ["curl/8.5.0"])] "192.168.1.5:54321").Method
      = "GET" ∧
    (sampleRequest "GET" "/" [("User-Agent", ["curl/8.5.0"])] "192.168.1.5:54321").Path = "/" ∧
    (router sampleWorld ResponseWriter.fresh
      (sampleRequest "GET" "/" [("User-Agent", ["curl/8.5.0"])] "192.168.1.5:54321")).w.status
      = 200 :=
  ⟨rfl, rfl,
   (router_root_endpoints sampleWorld
      (sampleRequest "GET" "/" [("User-Agent", ["curl/8.5.0"])] "192.168.1.5:54321")
      rfl rfl).2.1⟩

/-! ## Properties of `recoverMiddleware` -/

/-- C8, as stated, fails: wrapped around a handler that has committed status 200 before it
panics, `recoverMiddleware` leaves a response whose status is 200, not 500 (the later
`WriteHeader(500)` has no effect), with the error object appended to the body. -/
theorem recoverMiddleware_committed_counterexample :
    (commitThenPanic (sampleWorld.Printf "Request: GET /") ResponseWriter.fresh
        (sampleRequest "GET" "/" [] "192.168.1.5:54321")).panic = some "boom" ∧
    (recoverMiddleware commitThenPanic sampleWorld ResponseWriter.fresh
        (sampleRequest "GET" "/" [] "192.168.1.5:54321")).w.status = 200 ∧
    (recoverMiddleware commitThenPanic sampleWorld ResponseWriter.fresh
        (sampleRequest "GET" "/" [] "192.168.1.5:54321")).w.status ≠ 500 ∧
    (recoverMiddleware commitThenPanic sampleWorld ResponseWriter.fresh
        (sampleRequest "GET" "/" [] "192.168.1.5:54321")).w.sent.Get "Content-Type"
      ≠ "application/json" := by
  decide

/-- C8, amended: for every wrapped handler, environment, response writer and request,
`recoverMiddleware` returns without a panic; when the handler returns normally the outcome
(response included) is exactly the handler's; when the handler panics before anything of the
response was written (no status line, no body), the response has status 500, content type
application/json and the body
`{"error":"Internal Server Error","message":"An unexpected error occurred"}` followed by the
encoder's newline. -/
theorem recoverMiddleware_spec (next : Handler) (wd : World) (w : ResponseWriter) (r : Request) :
    (recoverMiddleware next wd w r).panic = none ∧
    ((next (wd.Printf ("Request: " ++ r.Method ++ " " ++ r.Path)) w r).panic = none →
      recoverMiddleware next wd w r =
        next (wd.Printf ("Request: " ++ r.Method ++ " " ++ r.Path)) w r) ∧
    (∀ err : String,
      (next (wd.Printf ("Request: " ++ r.Method ++ " " ++ r.Path)) w r).panic = some err →
      (next (wd.Printf ("Request: " ++ r.Method ++ " " ++ r.Path)) w r).w.wroteHeader = false →
      (next (wd.Printf ("Request: " ++ r.Method ++ " " ++ r.Path)) w r).w.body = "" →
        (recoverMiddleware next wd w r).w.wroteHeader = true ∧
        (recoverMiddleware next wd w r).w.status = 500 ∧
        (recoverMiddleware next wd w r).w.sent.Get "Content-Type" = "application/json" ∧
        (recoverMiddleware next wd w r).w.body =
          "\x7b\"error\":\"Internal Server Error\"," ++
            "\"message\":\"An unexpected error occurred\"\x7d\n") := by
  have hdef : recoverMiddleware next wd w r =
      match (next (wd.Printf ("Request: " ++ r.Method ++ " " ++ r.Path)) w r).panic with
      | none => next (wd.Printf ("Request: " ++ r.Method ++ " " ++ r.Path)) w r
      | some err =>
        { world := (next (wd.Printf ("Request: " ++ r.Method ++ " " ++ r.Path)) w r).world.Printf
            ("panic: " ++ err),
          w := writeJSON (next (wd.Printf ("Request: " ++ r.Method ++ " " ++ r.Path)) w r).w
            StatusInternalServerError
            (.dict [("error", "Internal Server Error"),
              ("message", "An unexpected error occurred")]),
          panic := none } := rfl
  rw [hdef]
  generalize next (wd.Printf ("Request: " ++ r.Method ++ " " ++ r.Path)) w r = out
  obtain ⟨ow, owr, op⟩ := out
  cases op with
  | none =>
    refine ⟨rfl, fun _ => rfl, ?_⟩
    intro err h
    simp at h
  | some e =>
    refine ⟨rfl, ?_, ?_⟩
    · intro h
      simp at h
    · intro err _ hwh hb
      obtain ⟨hd, wh, st, se, bd⟩ := owr
      simp only at hwh hb
      subst hwh
      subst hb
      simp only [writeJSON, ResponseWriter.SetHeader, ResponseWriter.WriteHeader,
        ResponseWriter.Write, StatusInternalServerError]
      refine ⟨by simp, by simp, ?_, ?_⟩
      · simp [Header.Set, Header.Get, List.lookup]
      · simp
        decide

theorem recoverMiddleware_spec_witness :
    (panicAtOnce (sampleWorld.Printf
        ("Request: " ++ (sampleRequest "GET" "/" [] "192.168.1.5:54321").Method ++ " " ++
          (sampleRequest "GET" "/" [] "192.168.1.5:54321").Path)) ResponseWriter.fresh
        (sampleRequest "GET" "/" [] "192.168.1.5:54321")).panic = some "boom" ∧
    (recoverMiddleware panicAtOnce sampleWorld ResponseWriter.fresh
        (sampleRequest "GET" "/" [] "192.168.1.5:54321")).w.status = 500 ∧
    (recoverMiddleware router sampleWorld ResponseWriter.fresh
        (sampleRequest "GET" "/health" [] "192.168.1.5:54321")) =
      router (sampleWorld.Printf
        ("Request: " ++ (sampleRequest "GET" "/health" [] "192.168.1.5:54321").Method ++ " " ++
          (sampleRequest "GET" "/health" [] "192.168.1.5:54321").Path)) ResponseWriter.fresh
        (sampleRequest "GET" "/health" [] "192.168.1.5:54321") :=
  ⟨rfl,
   ((recoverMiddleware_spec panicAtOnce sampleWorld ResponseWriter.fresh
      (sampleRequest "GET" "/" [] "192.168.1.5:54321")).2.2 "boom" rfl rfl rfl).2.1,
   (recoverMiddleware_spec router sampleWorld ResponseWriter.fresh
      (sampleRequest "GET" "/health" [] "192.168.1.5:54321")).2.1 rfl⟩

/-! ## Properties of `main` -/

theorem indexByte_isSome (s : List Char) (c : Char) : (indexByte s c).isSome = true ↔ c ∈ s := by
  induction s with
  | nil => simp [indexByte]
  | cons x xs ih =>
    by_cases hx : x = c
    · simp [indexByte, hx]
    · have hx2 : ¬ c = x := fun h => hx h.symm
      simp [indexByte, hx, hx2, ih]

theorem Getenv_or_default (wd : World) (key dflt : String) :
    (if wd.Getenv key = "" then dflt else wd.Getenv key) =
      nonEmptyOrDefault (wd.environ key) dflt := by
  unfold World.Getenv nonEmptyOrDefault
  cases wd.environ key with
  | none => simp
  | some s => simp

/-- C10, as stated, fails in two ways: with HOST set to "::1" and PORT unset the listening
address is "[::1]:5000", not "::1:5000"; with HOST set to the empty string it is
"0.0.0.0:5000", not ":5000". -/
theorem main_addr_counterexample :
    (worldWithHost "::1").environ "HOST" = some "::1" ∧
    (worldWithHost "::1").environ "PORT" = none ∧
    (main (worldWithHost "::1")).2.addr = "[::1]:5000" ∧
    (main (worldWithHost "::1")).2.addr ≠
      valueOrDefault ((worldWithHost "::1").environ "HOST") "0.0.0.0" ++ ":" ++
        valueOrDefault ((worldWithHost "::1").environ "PORT") "5000" ∧
    (worldWithHost "").environ "HOST" = some "" ∧
    (main (worldWithHost "")).2.addr = "0.0.0.0:5000" ∧
    (main (worldWithHost "")).2.addr ≠
      valueOrDefault ((worldWithHost "").environ "HOST") "0.0.0.0" ++ ":" ++
        valueOrDefault ((worldWithHost "").environ "PORT") "5000" := by
  decide

/-- C10, amended: for every setting of HOST and PORT, with host the value of HOST, or
"0.0.0.0" when HOST is unset or empty, and port the value of PORT, or "5000" when PORT is
unset or empty, the listening address computed in `main` is host, ":" and port when host
contains no colon, and "[", host, "]:" and port when it contains one. -/
theorem main_addr (wd : World) :
    (main wd).2.addr =
      if ':' ∈ (nonEmptyOrDefault (wd.environ "HOST") "0.0.0.0").data then
        "[" ++ nonEmptyOrDefault (wd.environ "HOST") "0.0.0.0" ++ "]:" ++
          nonEmptyOrDefault (wd.environ "PORT") "5000"
      else
        nonEmptyOrDefault (wd.environ "HOST") "0.0.0.0" ++ ":" ++
          nonEmptyOrDefault (wd.environ "PORT") "5000" := by
  have hh := Getenv_or_default wd "HOST" "0.0.0.0"
  have hp := Getenv_or_default wd "PORT" "5000"
  have hj : ∀ host port : String, JoinHostPort host port =
      if ':' ∈ host.data then "[" ++ host ++ "]:" ++ port else host ++ ":" ++ port := by
    intro host port
    simp only [JoinHostPort, indexByte_isSome]
  unfold main
  simp only [hh, hp]
  exact hj _ _

/-! ## Claims on `clientIP` -/

/-- C4, as stated, fails: a request whose X-Forwarded-For header is present with an empty
value gets the host of the peer address, "192.168.1.5", not the (empty) trimmed part of the
header value before its first comma. -/
theorem clientIP_empty_forwarded_counterexample :
    (sampleRequest "GET" "/" [("X-Forwarded-For", [""])] "192.168.1.5:54321").Header.lookup
      "X-Forwarded-For" = some [""] ∧
    clientIP (sampleRequest "GET" "/" [("X-Forwarded-For", [""])] "192.168.1.5:54321")
      = "192.168.1.5" ∧
    clientIP (sampleRequest "GET" "/" [("X-Forwarded-For", [""])] "192.168.1.5:54321")
      ≠ forwardedFirst "" := by
  decide

/-- C4, amended: for every request whose X-Forwarded-For header is present with a non-empty
first value `v`, `clientIP` returns the part of `v` before its first comma (all of `v` when
it has no comma) with surrounding whitespace trimmed, whatever the peer address; for the
value "203.0.113.7, 10.0.0.1" this is "203.0.113.7". -/
theorem clientIP_forwarded (r : Request) (v : String) (vs : List String)
    (hv : r.Header.lookup "X-Forwarded-For" = some (v :: vs)) (hne : v ≠ "") :
    clientIP r = forwardedFirst v ∧
    (∀ addr : String, clientIP { r with RemoteAddr := addr } = forwardedFirst v) ∧
    forwardedFirst "203.0.113.7, 10.0.0.1" = "203.0.113.7" := by
  have hg : r.Header.Get "X-Forwarded-For" = v := by
    simp only [Header.Get, hv]
  have h1 : clientIP r = forwardedFirst v := by
    have := clientIP_of_forwarded r (by rw [hg]; exact hne)
    rw [this, hg]
  refine ⟨h1, ?_, by decide⟩
  intro addr
  have hg2 : ({ r with RemoteAddr := addr } : Request).Header.Get "X-Forwarded-For" = v := hg
  have := clientIP_of_forwarded { r with RemoteAddr := addr } (by rw [hg2]; exact hne)
  rw [this, hg2]

theorem clientIP_forwarded_witness :
    (sampleRequest "GET" "/" [("X-Forwarded-For", ["203.0.113.7, 10.0.0.1"])]
        "192.168.1.5:54321").Header.lookup "X-Forwarded-For"
      = some ["203.0.113.7, 10.0.0.1"] ∧
    "203.0.113.7, 10.0.0.1" ≠ "" ∧
    clientIP (sampleRequest "GET" "/" [("X-Forwarded-For", ["203.0.113.7, 10.0.0.1"])]
        "192.168.1.5:54321") = forwardedFirst "203.0.113.7, 10.0.0.1" :=
  ⟨by decide, by decide,
   (clientIP_forwarded
      (sampleRequest "GET" "/" [("X-Forwarded-For", ["203.0.113.7, 10.0.0.1"])]
        "192.168.1.5:54321")
      "203.0.113.7, 10.0.0.1" [] (by decide) (by decide)).1⟩

/-- C5: for every request without X-Forwarded-For header, `clientIP` returns the host that
`net.SplitHostPort` extracts from the peer address when the split succeeds, and the peer
address unchanged when the split fails, as it does for an address without a colon;
"192.168.1.5:54321" splits into host "192.168.1.5" and port "54321".  `clientIP` is a total
function: the only partial operation in it, `parts[0]`, is applied to a list of at least
one element. -/
theorem clientIP_peer (r : Request) (h : r.Header.lookup "X-Forwarded-For" = none) :
    (∀ host port : String, SplitHostPort r.RemoteAddr = .ok (host, port) → clientIP r = host) ∧
    (∀ e : String, SplitHostPort r.RemoteAddr = .error e → clientIP r = r.RemoteAddr) ∧
    (':' ∉ r.RemoteAddr.data →
      SplitHostPort r.RemoteAddr = .error "missing port in address" ∧
      clientIP r = r.RemoteAddr) ∧
    SplitHostPort "192.168.1.5:54321" = .ok ("192.168.1.5", "54321") ∧
    (∀ v : String, 0 < (Split v ",").length) := by
  have hg : r.Header.Get "X-Forwarded-For" = "" := by
    simp only [Header.Get, h]
  have hc := clientIP_of_not_forwarded r hg
  have hok : ∀ host port : String, SplitHostPort r.RemoteAddr = .ok (host, port) →
      clientIP r = host := by
    intro host port hs
    rw [hc, hs]
  have herr : ∀ e : String, SplitHostPort r.RemoteAddr = .error e →
      clientIP r = r.RemoteAddr := by
    intro e hs
    rw [hc, hs]
  refine ⟨hok, herr, ?_, by rfl, Split_comma_pos⟩
  intro hcolon
  have hl : lastIndexByte r.RemoteAddr.data ':' = none := by
    generalize r.RemoteAddr.data = s at hcolon
    induction s with
    | nil => rfl
    | cons x xs ih =>
      have hx : ¬ x = ':' := fun hx => hcolon (by simp [hx])
      have hxs : ':' ∉ xs := fun hm => hcolon (List.mem_cons_of_mem _ hm)
      simp [lastIndexByte, ih hxs, hx]
  have hs : SplitHostPort r.RemoteAddr = .error "missing port in address" := by
    simp only [SplitHostPort, hl]
  exact ⟨hs, herr _ hs⟩

theorem clientIP_peer_witness :
    (sampleRequest "GET" "/" [] "192.168.1.5:54321").Header.lookup "X-Forwarded-For" = none ∧
    clientIP (sampleRequest "GET" "/" [] "192.168.1.5:54321") = "192.168.1.5" ∧
    (sampleRequest "GET" "/" [] "192.168.1.5").Header.lookup "X-Forwarded-For" = none ∧
    clientIP (sampleRequest "GET" "/" [] "192.168.1.5") = "192.168.1.5" :=
  ⟨rfl,
   (clientIP_peer (sampleRequest "GET" "/" [] "192.168.1.5:54321") rfl).1
      "192.168.1.5" "54321" rfl,
   rfl,
   ((clientIP_peer (sampleRequest "GET" "/" [] "192.168.1.5") rfl).2.2.1 (by decide)).2⟩

/-! ## Claims on `platformVersion` -/

/-- C9, as stated, fails: on Linux, with a readable descriptor file whose PRETTY_NAME key has
the empty value `""`, the result is the raw OS identifier "linux", not the (empty) unquoted
value of the key. -/
theorem platformVersion_empty_pretty_counterexample :
    (worldWithOsRelease (some "NAME=\"Ubuntu\"\nPRETTY_NAME=\"\"\n")).GOOS = "linux" ∧
    (worldWithOsRelease (some "NAME=\"Ubuntu\"\nPRETTY_NAME=\"\"\n")).ReadFile "/etc/os-release"
      = some "NAME=\"Ubuntu\"\nPRETTY_NAME=\"\"\n" ∧
    prettyNameKey "NAME=\"Ubuntu\"\nPRETTY_NAME=\"\"\n" = some "\"\"" ∧
    unquote "\"\"" = "" ∧
    platformVersion (worldWithOsRelease (some "NAME=\"Ubuntu\"\nPRETTY_NAME=\"\"\n")) = "linux" ∧
    platformVersion (worldWithOsRelease (some "NAME=\"Ubuntu\"\nPRETTY_NAME=\"\"\n"))
      ≠ unquote "\"\"" := by
  decide

/-- C9, amended: `platformVersion` is total and, with the OS identifier and the content of the
OS-release file as inputs: on Linux, if the file is readable and has a PRETTY_NAME key whose
unquoted value (the text after "PRETTY_NAME=" on the first such line, surrounding double
quotes removed) is not empty, the result is that unquoted value; if the file is absent or
unreadable, or has no PRETTY_NAME key, or the unquoted value of the key is empty, the result
is the raw OS identifier "linux"; on any OS other than Linux and Windows the result is the
raw OS identifier. -/
theorem platformVersion_spec (wd : World) :
    (wd.GOOS = "linux" →
      ∀ data v : String, wd.ReadFile "/etc/os-release" = some data →
        prettyNameKey data = some v → unquote v ≠ "" → platformVersion wd = unquote v) ∧
    (wd.GOOS = "linux" → wd.ReadFile "/etc/os-release" = none → platformVersion wd = "linux") ∧
    (wd.GOOS = "linux" →
      ∀ data : String, wd.ReadFile "/etc/os-release" = some data →
        prettyNameKey data = none → platformVersion wd = "linux") ∧
    (wd.GOOS = "linux" →
      ∀ data v : String, wd.ReadFile "/etc/os-release" = some data →
        prettyNameKey data = some v → unquote v = "" → platformVersion wd = "linux") ∧
    (wd.GOOS ≠ "linux" → wd.GOOS ≠ "windows" → platformVersion wd = wd.GOOS) := by
  refine ⟨?_, ?_, ?_, ?_, ?_⟩
  · intro hos data v hr hk hne
    have hp : linuxPrettyName wd = unquote v := by
      rw [linuxPrettyName_eq, hr]
      simp [hk]
    simp only [platformVersion, hos, if_true, hp]
    rw [if_pos hne]
  · intro hos hr
    have hp : linuxPrettyName wd = "" := by
      rw [linuxPrettyName_eq, hr]
      simp
    simp only [platformVersion, hos, if_true, hp]
    simp
  · intro hos data hr hk
    have hp : linuxPrettyName wd = "" := by
      rw [linuxPrettyName_eq, hr]
      simp [hk]
    simp only [platformVersion, hos, if_true, hp]
    simp
  · intro hos data v hr hk he
    have hp : linuxPrettyName wd = "" := by
      rw [linuxPrettyName_eq, hr]
      simp [hk, he]
    simp only [platformVersion, hos, if_true, hp]
    simp
  · intro h1 h2
    simp only [platformVersion, h1, h2, if_false]

theorem platformVersion_spec_witness :
    sampleWorld.GOOS = "linux" ∧
    sampleWorld.ReadFile "/etc/os-release"
      = some "NAME=\"Ubuntu\"\nPRETTY_NAME=\"Ubuntu 24.04 LTS\"\n" ∧
    prettyNameKey "NAME=\"Ubuntu\"\nPRETTY_NAME=\"Ubuntu 24.04 LTS\"\n"
      = some "\"Ubuntu 24.04 LTS\"" ∧
    unquote "\"Ubuntu 24.04 LTS\"" = "Ubuntu 24.04 LTS" ∧
    platformVersion sampleWorld = unquote "\"Ubuntu 24.04 LTS\"" ∧
    platformVersion (worldWithOsRelease none) = "linux" ∧
    platformVersion { sampleWorld with GOOS := "darwin" } = "darwin" :=
  ⟨rfl, rfl, by decide, by decide,
   (platformVersion_spec sampleWorld).1 rfl
      "NAME=\"Ubuntu\"\nPRETTY_NAME=\"Ubuntu 24.04 LTS\"\n" "\"Ubuntu 24.04 LTS\""
      rfl (by decide) (by decide),
   (platformVersion_spec (worldWithOsRelease none)).2.1 rfl rfl,
   (platformVersion_spec { sampleWorld with GOOS := "darwin" }).2.2.2.2 (by decide) (by decide)⟩

/-! ## Properties of the `float64` model -/

theorem bitLenAux_spec (bound n : Nat) (h : n ≤ bound) :
    n < 2 ^ bitLenAux bound n ∧ (n ≠ 0 → 2 ^ (bitLenAux bound n - 1) ≤ n) := by
  induction bound generalizing n with
  | zero =>
    have hn : n = 0 := Nat.le_zero.mp h
    subst hn
    simp [bitLenAux]
  | succ b ih =>
    by_cases hn : n = 0
    · subst hn
      simp [bitLenAux]
    · have hhalf : n / 2 ≤ b := by omega
      obtain ⟨h1, h2⟩ := ih (n / 2) hhalf
      have hdef : bitLenAux (b + 1) n = bitLenAux b (n / 2) + 1 := by
        simp [bitLenAux, hn]
      rw [hdef]
      refine ⟨?_, fun _ => ?_⟩
      · rw [pow_succ]
        omega
      · simp only [Nat.add_sub_cancel]
        by_cases hz : n / 2 = 0
        · have hL : bitLenAux b (n / 2) = 0 := by
            rw [hz]
            cases b <;> simp [bitLenAux]
          rw [hL]
          simp
          omega
        · have h3 := h2 hz
          have hpos : 0 < bitLenAux b (n / 2) := by
            by_contra hc
            have hL : bitLenAux b (n / 2) = 0 := by omega
            rw [hL] at h1
            simp at h1
            exact hz h1
          have he : bitLenAux b (n / 2) = (bitLenAux b (n / 2) - 1) + 1 := by omega
          rw [he, pow_succ]
          omega

theorem bitLen_lt (n : Nat) : n < 2 ^ bitLen n :=
  (bitLenAux_spec n n (Nat.le_refl n)).1

theorem bitLen_le (n : Nat) (h : 0 < n) : 2 ^ (bitLen n - 1) ≤ n :=
  (bitLenAux_spec n n (Nat.le_refl n)).2 (Nat.pos_iff_ne_zero.mp h)

theorem bitLen_pos (n : Nat) (h : 0 < n) : 0 < bitLen n := by
  by_contra hc
  have h0 : bitLen n = 0 := by omega
  have := bitLen_lt n
  rw [h0] at this
  omega

theorem roundHalfEven_ge (a b : Nat) : a / b ≤ roundHalfEven a b := by
  unfold roundHalfEven
  simp only
  split_ifs <;> omega

theorem roundHalfEven_le (a b : Nat) : roundHalfEven a b ≤ a / b + 1 := by
  unfold roundHalfEven
  simp only
  split_ifs <;> omega

theorem roundHalfEven_exact (n b : Nat) (hb : 0 < b) : roundHalfEven (n * b) b = n := by
  unfold roundHalfEven
  have h1 : n * b / b = n := Nat.mul_div_cancel n hb
  have h2 : n * b % b = 0 := Nat.mul_mod_left n b
  simp only [h1, h2]
  simp [hb]

theorem roundHalfEven_mono (a1 b1 a2 b2 : Nat) (hb1 : 0 < b1) (hb2 : 0 < b2)
    (h : a1 * b2 ≤ a2 * b1) : roundHalfEven a1 b1 ≤ roundHalfEven a2 b2 := by
  have hq : a1 / b1 ≤ a2 / b2 := by
    rw [Nat.le_div_iff_mul_le hb2]
    have h1 : a1 / b1 * b1 ≤ a1 := Nat.div_mul_le_self a1 b1
    have h2 : a1 / b1 * b2 * b1 ≤ a2 * b1 := by
      calc a1 / b1 * b2 * b1 = a1 / b1 * b1 * b2 := by ring
        _ ≤ a1 * b2 := Nat.mul_le_mul_right b2 h1
        _ ≤ a2 * b1 := h
    exact Nat.le_of_mul_le_mul_right h2 hb1
  rcases Nat.lt_or_ge (a1 / b1) (a2 / b2) with hlt | hge
  · calc roundHalfEven a1 b1 ≤ a1 / b1 + 1 := roundHalfEven_le a1 b1
      _ ≤ a2 / b2 := hlt
      _ ≤ roundHalfEven a2 b2 := roundHalfEven_ge a2 b2
  · have heq : a1 / b1 = a2 / b2 := Nat.le_antisymm hq hge
    have e1 : a1 = b1 * (a1 / b1) + a1 % b1 := (Nat.div_add_mod a1 b1).symm
    have e2 : a2 = b2 * (a2 / b2) + a2 % b2 := (Nat.div_add_mod a2 b2).symm
    have hr : a1 % b1 * b2 ≤ a2 % b2 * b1 := by
      have h3 : (b1 * (a1 / b1) + a1 % b1) * b2 ≤ (b2 * (a2 / b2) + a2 % b2) * b1 := by
        rw [← e1, ← e2]; exact h
      rw [heq] at h3
      have h4 : b1 * (a2 / b2) * b2 + a1 % b1 * b2 ≤ b1 * (a2 / b2) * b2 + a2 % b2 * b1 := by
        calc b1 * (a2 / b2) * b2 + a1 % b1 * b2 = (b1 * (a2 / b2) + a1 % b1) * b2 := by ring
          _ ≤ (b2 * (a2 / b2) + a2 % b2) * b1 := h3
          _ = b1 * (a2 / b2) * b2 + a2 % b2 * b1 := by ring
      exact Nat.le_of_add_le_add_left h4
    unfold roundHalfEven
    simp only
    rw [heq]
    by_cases c1 : 2 * (a1 % b1) < b1
    · rw [if_pos c1]
      split_ifs <;> omega
    · rw [if_neg c1]
      have k1 : b1 * b2 ≤ 2 * (a2 % b2) * b1 := by
        calc b1 * b2 ≤ 2 * (a1 % b1) * b2 := Nat.mul_le_mul_right b2 (Nat.le_of_not_lt c1)
          _ = 2 * (a1 % b1 * b2) := by ring
          _ ≤ 2 * (a2 % b2 * b1) := Nat.mul_le_mul_left 2 hr
          _ = 2 * (a2 % b2) * b1 := by ring
      have k2 : b2 ≤ 2 * (a2 % b2) := by
        have : b2 * b1 ≤ 2 * (a2 % b2) * b1 := by rw [Nat.mul_comm b2 b1]; exact k1
        exact Nat.le_of_mul_le_mul_right this hb1
      have c2 : ¬ 2 * (a2 % b2) < b2 := Nat.not_lt.mpr k2
      rw [if_neg c2]
      by_cases d1 : b1 < 2 * (a1 % b1)
      · rw [if_pos d1]
        have k3 : b1 * b2 < 2 * (a2 % b2) * b1 := by
          calc b1 * b2 < 2 * (a1 % b1) * b2 := Nat.mul_lt_mul_of_pos_right d1 hb2
            _ = 2 * (a1 % b1 * b2) := by ring
            _ ≤ 2 * (a2 % b2 * b1) := Nat.mul_le_mul_left 2 hr
            _ = 2 * (a2 % b2) * b1 := by ring
        have k4 : b2 < 2 * (a2 % b2) := by
          have : b2 * b1 < 2 * (a2 % b2) * b1 := by rw [Nat.mul_comm b2 b1]; exact k3
          exact Nat.lt_of_mul_lt_mul_right this
        rw [if_pos k4]
      · rw [if_neg d1]
        split_ifs <;> omega

theorem scale_den_pos (a b : Nat) (s : Int) (hb : 0 < b) : 0 < (scale a b s).2 := by
  unfold scale
  split_ifs
  · exact hb
  · exact Nat.mul_pos hb (pow_pos (by norm_num) _)

theorem scale_num_pos (a b : Nat) (s : Int) (ha : 0 < a) : 0 < (scale a b s).1 := by
  unfold scale
  split_ifs
  · exact Nat.mul_pos ha (pow_pos (by norm_num) _)
  · exact ha

theorem scale_val (a b : Nat) (s : Int) (hb : 0 < b) :
    ((scale a b s).1 : ℚ) / ((scale a b s).2 : ℚ) = (a : ℚ) / (b : ℚ) * (2 : ℚ) ^ s := by
  have hbq : (b : ℚ) ≠ 0 := by exact_mod_cast (Nat.pos_iff_ne_zero.mp hb)
  unfold scale
  split_ifs with h
  · have hs : s = (s.toNat : Int) := (Int.toNat_of_nonneg h).symm
    simp only [Nat.cast_mul, Nat.cast_pow, Nat.cast_ofNat]
    rw [← zpow_natCast, ← hs]
    ring
  · have hneg : 0 ≤ -s := by omega
    have hs : -s = ((-s).toNat : Int) := (Int.toNat_of_nonneg hneg).symm
    simp only [Nat.cast_mul, Nat.cast_pow, Nat.cast_ofNat]
    rw [← zpow_natCast, ← hs, zpow_neg]
    have h2 : (2 : ℚ) ^ s ≠ 0 := zpow_ne_zero _ (by norm_num)
    field_simp

theorem binade_spec (a b : Nat) (ha : 0 < a) (hb : 0 < b) :
    (2 : ℚ) ^ binade a b ≤ (a : ℚ) / (b : ℚ) ∧ (a : ℚ) / (b : ℚ) < (2 : ℚ) ^ (binade a b + 1) := by
  have hbq : (0 : ℚ) < (b : ℚ) := by exact_mod_cast hb
  have haq : (0 : ℚ) < (a : ℚ) := by exact_mod_cast ha
  have hla := bitLen_pos a ha
  have hlb := bitLen_pos b hb
  have a_lt : (a : ℚ) < (2 : ℚ) ^ bitLen a := by exact_mod_cast bitLen_lt a
  have b_lt : (b : ℚ) < (2 : ℚ) ^ bitLen b := by exact_mod_cast bitLen_lt b
  have a_ge : (2 : ℚ) ^ bitLen a ≤ 2 * (a : ℚ) := by
    have h := bitLen_le a ha
    have h2 : 2 ^ bitLen a = 2 * 2 ^ (bitLen a - 1) := by
      have he : bitLen a = (bitLen a - 1) + 1 := by omega
      rw [he, pow_succ]
      simp
      ring
    have h3 : 2 ^ bitLen a ≤ 2 * a := by rw [h2]; omega
    exact_mod_cast h3
  have b_ge : (2 : ℚ) ^ bitLen b ≤ 2 * (b : ℚ) := by
    have h := bitLen_le b hb
    have h2 : 2 ^ bitLen b = 2 * 2 ^ (bitLen b - 1) := by
      have he : bitLen b = (bitLen b - 1) + 1 := by omega
      rw [he, pow_succ]
      simp
      ring
    have h3 : 2 ^ bitLen b ≤ 2 * b := by rw [h2]; omega
    exact_mod_cast h3
  have pa : (0 : ℚ) < (2 : ℚ) ^ bitLen a := pow_pos (by norm_num) _
  have pb : (0 : ℚ) < (2 : ℚ) ^ bitLen b := pow_pos (by norm_num) _
  have two_ne : (2 : ℚ) ≠ 0 := by norm_num
  have hz1 : (2 : ℚ) ^ ((bitLen a : Int) - (bitLen b : Int)) =
      (2 : ℚ) ^ bitLen a / (2 : ℚ) ^ bitLen b := by
    rw [zpow_sub₀ two_ne, zpow_natCast, zpow_natCast]
  unfold binade
  split_ifs with hc
  · have hcq : (b : ℚ) * (2 : ℚ) ^ bitLen a ≤ (a : ℚ) * (2 : ℚ) ^ bitLen b := by
      exact_mod_cast hc
    constructor
    · rw [hz1, div_le_div_iff₀ pb hbq]
      linarith
    · rw [zpow_add₀ two_ne, hz1, zpow_one, div_mul_eq_mul_div, div_lt_div_iff₀ hbq pb]
      nlinarith
  · have hcq : (a : ℚ) * (2 : ℚ) ^ bitLen b < (b : ℚ) * (2 : ℚ) ^ bitLen a := by
      have := Nat.lt_of_not_le hc
      exact_mod_cast this
    constructor
    · rw [zpow_sub₀ two_ne, hz1, zpow_one, div_div, div_le_div_iff₀ (by positivity) hbq]
      nlinarith
    · have he : (bitLen a : Int) - (bitLen b : Int) - 1 + 1 = (bitLen a : Int) - bitLen b := by
        ring
      rw [he, hz1, div_lt_div_iff₀ hbq pb]
      linarith

theorem roundPos_scaled (a b : Nat) (ha : 0 < a) (hb : 0 < b) :
    (2 : ℚ) ^ (52 : Nat) ≤
        ((scale a b (-(binade a b - 52))).1 : ℚ) / ((scale a b (-(binade a b - 52))).2 : ℚ) ∧
      ((scale a b (-(binade a b - 52))).1 : ℚ) / ((scale a b (-(binade a b - 52))).2 : ℚ)
        < (2 : ℚ) ^ (53 : Nat) := by
  obtain ⟨h1, h2⟩ := binade_spec a b ha hb
  have two_ne : (2 : ℚ) ≠ 0 := by norm_num
  rw [scale_val a b _ hb]
  have hp : (0 : ℚ) < (2 : ℚ) ^ (-(binade a b - 52)) := zpow_pos (by norm_num) _
  have e1 : (2 : ℚ) ^ binade a b * (2 : ℚ) ^ (-(binade a b - 52)) = (2 : ℚ) ^ (52 : Nat) := by
    rw [← zpow_add₀ two_ne, ← zpow_natCast]
    congr 1
    simp
  have e2 : (2 : ℚ) ^ (binade a b + 1) * (2 : ℚ) ^ (-(binade a b - 52)) = (2 : ℚ) ^ (53 : Nat) := by
    rw [← zpow_add₀ two_ne, ← zpow_natCast]
    congr 1
    simp
    ring
  constructor
  · rw [← e1]
    exact mul_le_mul_of_nonneg_right h1 (le_of_lt hp)
  · rw [← e2]
    exact mul_lt_mul_of_pos_right h2 hp

theorem roundPos_m_bounds (a b : Nat) (ha : 0 < a) (hb : 0 < b) :
    (2 : Int) ^ 52 ≤ (roundPos a b).m ∧ (roundPos a b).m ≤ (2 : Int) ^ 53 := by
  obtain ⟨h1, h2⟩ := roundPos_scaled a b ha hb
  have hd := scale_den_pos a b (-(binade a b - 52)) hb
  have hdq : (0 : ℚ) < ((scale a b (-(binade a b - 52))).2 : ℚ) := by exact_mod_cast hd
  rw [le_div_iff₀ hdq] at h1
  rw [div_lt_iff₀ hdq] at h2
  have n1 : 2 ^ 52 * (scale a b (-(binade a b - 52))).2 ≤ (scale a b (-(binade a b - 52))).1 * 1 := by
    rw [Nat.mul_one]
    exact_mod_cast h1
  have n2 : (scale a b (-(binade a b - 52))).1 * 1 ≤ 2 ^ 53 * (scale a b (-(binade a b - 52))).2 := by
    rw [Nat.mul_one]
    exact_mod_cast le_of_lt h2
  have r1 := roundHalfEven_mono (2 ^ 52) 1 _ _ Nat.one_pos hd n1
  have r2 := roundHalfEven_mono _ _ (2 ^ 53) 1 hd Nat.one_pos n2
  have x1 : roundHalfEven (2 ^ 52) 1 = 2 ^ 52 := by
    have := roundHalfEven_exact (2 ^ 52) 1 Nat.one_pos
    rwa [Nat.mul_one] at this
  have x2 : roundHalfEven (2 ^ 53) 1 = 2 ^ 53 := by
    have := roundHalfEven_exact (2 ^ 53) 1 Nat.one_pos
    rwa [Nat.mul_one] at this
  rw [x1] at r1
  rw [x2] at r2
  unfold roundPos
  simp only
  constructor
  · exact_mod_cast r1
  · exact_mod_cast r2

theorem roundPos_val_pos (a b : Nat) (ha : 0 < a) (hb : 0 < b) : 0 < (roundPos a b).val := by
  have h := (roundPos_m_bounds a b ha hb).1
  unfold Float64.val
  have hm : (0 : ℚ) < ((roundPos a b).m : ℚ) := by
    have : (0 : Int) < (roundPos a b).m := lt_of_lt_of_le (by norm_num) h
    exact_mod_cast this
  exact mul_pos hm (zpow_pos (by norm_num) _)

theorem roundPos_mono (a1 b1 a2 b2 : Nat) (ha1 : 0 < a1) (hb1 : 0 < b1) (ha2 : 0 < a2)
    (hb2 : 0 < b2) (h : (a1 : ℚ) / (b1 : ℚ) ≤ (a2 : ℚ) / (b2 : ℚ)) :
    (roundPos a1 b1).val ≤ (roundPos a2 b2).val := by
  have two_ne : (2 : ℚ) ≠ 0 := by norm_num
  have one_lt : (1 : ℚ) < 2 := by norm_num
  obtain ⟨l1, u1⟩ := binade_spec a1 b1 ha1 hb1
  obtain ⟨l2, u2⟩ := binade_spec a2 b2 ha2 hb2
  obtain ⟨ml1, mu1⟩ := roundPos_m_bounds a1 b1 ha1 hb1
  obtain ⟨ml2, mu2⟩ := roundPos_m_bounds a2 b2 ha2 hb2
  have hE : binade a1 b1 ≤ binade a2 b2 := by
    by_contra hc
    have hlt : binade a2 b2 + 1 ≤ binade a1 b1 := by omega
    have hp : (2 : ℚ) ^ (binade a2 b2 + 1) ≤ (2 : ℚ) ^ binade a1 b1 :=
      zpow_le_zpow_right₀ (le_of_lt one_lt) hlt
    linarith
  rcases eq_or_lt_of_le hE with heq | hlt
  · have hd1 := scale_den_pos a1 b1 (-(binade a1 b1 - 52)) hb1
    have hd2 := scale_den_pos a2 b2 (-(binade a2 b2 - 52)) hb2
    have hd1q : (0 : ℚ) < ((scale a1 b1 (-(binade a1 b1 - 52))).2 : ℚ) := by exact_mod_cast hd1
    have hd2q : (0 : ℚ) < ((scale a2 b2 (-(binade a2 b2 - 52))).2 : ℚ) := by exact_mod_cast hd2
    have hs : ((scale a1 b1 (-(binade a1 b1 - 52))).1 : ℚ) /
          ((scale a1 b1 (-(binade a1 b1 - 52))).2 : ℚ) ≤
        ((scale a2 b2 (-(binade a2 b2 - 52))).1 : ℚ) /
          ((scale a2 b2 (-(binade a2 b2 - 52))).2 : ℚ) := by
      rw [scale_val a1 b1 _ hb1, scale_val a2 b2 _ hb2, heq]
      exact mul_le_mul_of_nonneg_right h (le_of_lt (zpow_pos (by norm_num) _))
    rw [div_le_div_iff₀ hd1q hd2q] at hs
    have hn : (scale a1 b1 (-(binade a1 b1 - 52))).1 * (scale a2 b2 (-(binade a2 b2 - 52))).2 ≤
        (scale a2 b2 (-(binade a2 b2 - 52))).1 * (scale a1 b1 (-(binade a1 b1 - 52))).2 := by
      exact_mod_cast hs
    have hm := roundHalfEven_mono _ _ _ _ hd1 hd2 hn
    have hmz : (roundPos a1 b1).m ≤ (roundPos a2 b2).m := by
      unfold roundPos
      simp only
      exact_mod_cast hm
    have he : (roundPos a1 b1).e = (roundPos a2 b2).e := by
      unfold roundPos
      simp only
      rw [heq]
    unfold Float64.val
    rw [he]
    have hmq : ((roundPos a1 b1).m : ℚ) ≤ ((roundPos a2 b2).m : ℚ) := by exact_mod_cast hmz
    exact mul_le_mul_of_nonneg_right hmq (le_of_lt (zpow_pos (by norm_num) _))
  · have e1 : (roundPos a1 b1).e = binade a1 b1 - 52 := rfl
    have e2 : (roundPos a2 b2).e = binade a2 b2 - 52 := rfl
    have mu1q : ((roundPos a1 b1).m : ℚ) ≤ (2 : ℚ) ^ (53 : Nat) := by exact_mod_cast mu1
    have ml2q : (2 : ℚ) ^ (52 : Nat) ≤ ((roundPos a2 b2).m : ℚ) := by exact_mod_cast ml2
    have p1 : (0 : ℚ) < (2 : ℚ) ^ (binade a1 b1 - 52) := zpow_pos (by norm_num) _
    have p2 : (0 : ℚ) < (2 : ℚ) ^ (binade a2 b2 - 52) := zpow_pos (by norm_num) _
    have k1 : (2 : ℚ) ^ (53 : Nat) * (2 : ℚ) ^ (binade a1 b1 - 52) = (2 : ℚ) ^ (binade a1 b1 + 1) := by
      rw [← zpow_natCast, ← zpow_add₀ two_ne]
      congr 1
      simp
      ring
    have k2 : (2 : ℚ) ^ (52 : Nat) * (2 : ℚ) ^ (binade a2 b2 - 52) = (2 : ℚ) ^ binade a2 b2 := by
      rw [← zpow_natCast, ← zpow_add₀ two_ne]
      congr 1
      simp
    have k3 : (2 : ℚ) ^ (binade a1 b1 + 1) ≤ (2 : ℚ) ^ binade a2 b2 :=
      zpow_le_zpow_right₀ (le_of_lt one_lt) (by omega)
    unfold Float64.val
    rw [e1, e2]
    calc ((roundPos a1 b1).m : ℚ) * (2 : ℚ) ^ (binade a1 b1 - 52)
        ≤ (2 : ℚ) ^ (53 : Nat) * (2 : ℚ) ^ (binade a1 b1 - 52) :=
          mul_le_mul_of_nonneg_right mu1q (le_of_lt p1)
      _ = (2 : ℚ) ^ (binade a1 b1 + 1) := k1
      _ ≤ (2 : ℚ) ^ binade a2 b2 := k3
      _ = (2 : ℚ) ^ (52 : Nat) * (2 : ℚ) ^ (binade a2 b2 - 52) := k2.symm
      _ ≤ ((roundPos a2 b2).m : ℚ) * (2 : ℚ) ^ (binade a2 b2 - 52) :=
          mul_le_mul_of_nonneg_right ml2q (le_of_lt p2)

theorem round_zero (b : Nat) (s : Int) : Float64.round 0 b s = ⟨0, 0⟩ := by
  simp [Float64.round]

theorem val_zero : (⟨0, 0⟩ : Float64).val = 0 := by
  simp [Float64.val]

theorem round_val_pos (a : Int) (b : Nat) (s : Int) (ha : 0 < a) (hb : 0 < b) :
    (Float64.round a b s).val =
      (roundPos (scale a.natAbs b s).1 (scale a.natAbs b s).2).val := by
  have h0 : ¬ (a = 0 ∨ b = 0) := by omega
  unfold Float64.round
  rw [if_neg h0]
  simp only [Float64.val, Int.sign_eq_one_of_pos ha, one_mul]

theorem round_val_neg (a : Int) (b : Nat) (s : Int) (ha : a < 0) (hb : 0 < b) :
    (Float64.round a b s).val =
      -(roundPos (scale a.natAbs b s).1 (scale a.natAbs b s).2).val := by
  have h0 : ¬ (a = 0 ∨ b = 0) := by omega
  unfold Float64.round
  rw [if_neg h0]
  simp only [Float64.val, Int.sign_eq_neg_one_of_neg ha]
  push_cast
  ring

theorem natAbs_cast_of_nonneg (a : Int) (h : 0 ≤ a) : ((a.natAbs : Nat) : ℚ) = (a : ℚ) := by
  rw [← Int.cast_natCast a.natAbs, Int.natAbs_of_nonneg h]

theorem natAbs_cast_of_nonpos (a : Int) (h : a ≤ 0) : ((a.natAbs : Nat) : ℚ) = -(a : ℚ) := by
  rw [← Int.cast_natCast a.natAbs, Int.ofNat_natAbs_of_nonpos h, Int.cast_neg]

theorem exactVal_pos (a : Int) (b : Nat) (s : Int) (ha : 0 < a) (hb : 0 < b) :
    exactVal a b s = ((scale a.natAbs b s).1 : ℚ) / ((scale a.natAbs b s).2 : ℚ) := by
  rw [scale_val _ _ _ hb]
  unfold exactVal
  rw [natAbs_cast_of_nonneg a (le_of_lt ha)]

theorem exactVal_neg (a : Int) (b : Nat) (s : Int) (ha : a < 0) (hb : 0 < b) :
    exactVal a b s = -(((scale a.natAbs b s).1 : ℚ) / ((scale a.natAbs b s).2 : ℚ)) := by
  rw [scale_val _ _ _ hb]
  unfold exactVal
  rw [natAbs_cast_of_nonpos a (le_of_lt ha)]
  ring

theorem scale_frac_pos (a b : Nat) (s : Int) (ha : 0 < a) (hb : 0 < b) :
    (0 : ℚ) < ((scale a b s).1 : ℚ) / ((scale a b s).2 : ℚ) := by
  have h1 : (0 : ℚ) < ((scale a b s).1 : ℚ) := by exact_mod_cast scale_num_pos a b s ha
  have h2 : (0 : ℚ) < ((scale a b s).2 : ℚ) := by exact_mod_cast scale_den_pos a b s hb
  exact div_pos h1 h2

theorem exactVal_zero (b : Nat) (s : Int) : exactVal 0 b s = 0 := by
  simp [exactVal]

theorem natAbs_pos_of_ne (a : Int) (h : a ≠ 0) : 0 < a.natAbs :=
  Int.natAbs_pos.mpr h

theorem round_mono (a1 : Int) (b1 : Nat) (s1 : Int) (a2 : Int) (b2 : Nat) (s2 : Int)
    (hb1 : 0 < b1) (hb2 : 0 < b2) (h : exactVal a1 b1 s1 ≤ exactVal a2 b2 s2) :
    (Float64.round a1 b1 s1).val ≤ (Float64.round a2 b2 s2).val := by
  rcases lt_trichotomy a1 0 with n1 | z1 | p1
  · have hP1 := roundPos_val_pos _ _ (scale_num_pos a1.natAbs b1 s1 (natAbs_pos_of_ne a1 (by omega)))
      (scale_den_pos a1.natAbs b1 s1 hb1)
    rw [round_val_neg a1 b1 s1 n1 hb1]
    rcases lt_trichotomy a2 0 with n2 | z2 | p2
    · rw [round_val_neg a2 b2 s2 n2 hb2]
      rw [exactVal_neg a1 b1 s1 n1 hb1, exactVal_neg a2 b2 s2 n2 hb2] at h
      have h' := neg_le_neg_iff.mp h
      have := roundPos_mono _ _ _ _
        (scale_num_pos a2.natAbs b2 s2 (natAbs_pos_of_ne a2 (by omega)))
        (scale_den_pos a2.natAbs b2 s2 hb2)
        (scale_num_pos a1.natAbs b1 s1 (natAbs_pos_of_ne a1 (by omega)))
        (scale_den_pos a1.natAbs b1 s1 hb1) h'
      linarith
    · subst z2
      rw [round_zero, val_zero]
      linarith
    · have hP2 := roundPos_val_pos _ _
        (scale_num_pos a2.natAbs b2 s2 (natAbs_pos_of_ne a2 (by omega)))
        (scale_den_pos a2.natAbs b2 s2 hb2)
      rw [round_val_pos a2 b2 s2 p2 hb2]
      linarith
  · subst z1
    rw [round_zero, val_zero]
    rw [exactVal_zero] at h
    rcases lt_trichotomy a2 0 with n2 | z2 | p2
    · rw [exactVal_neg a2 b2 s2 n2 hb2] at h
      have := scale_frac_pos a2.natAbs b2 s2 (natAbs_pos_of_ne a2 (by omega)) hb2
      linarith
    · subst z2
      rw [round_zero, val_zero]
    · have hP2 := roundPos_val_pos _ _
        (scale_num_pos a2.natAbs b2 s2 (natAbs_pos_of_ne a2 (by omega)))
        (scale_den_pos a2.natAbs b2 s2 hb2)
      rw [round_val_pos a2 b2 s2 p2 hb2]
      linarith
  · rw [round_val_pos a1 b1 s1 p1 hb1]
    rw [exactVal_pos a1 b1 s1 p1 hb1] at h
    have hf1 := scale_frac_pos a1.natAbs b1 s1 (natAbs_pos_of_ne a1 (by omega)) hb1
    rcases lt_trichotomy a2 0 with n2 | z2 | p2
    · rw [exactVal_neg a2 b2 s2 n2 hb2] at h
      have := scale_frac_pos a2.natAbs b2 s2 (natAbs_pos_of_ne a2 (by omega)) hb2
      linarith
    · subst z2
      rw [exactVal_zero] at h
      linarith
    · rw [round_val_pos a2 b2 s2 p2 hb2]
      rw [exactVal_pos a2 b2 s2 p2 hb2] at h
      exact roundPos_mono _ _ _ _
        (scale_num_pos a1.natAbs b1 s1 (natAbs_pos_of_ne a1 (by omega)))
        (scale_den_pos a1.natAbs b1 s1 hb1)
        (scale_num_pos a2.natAbs b2 s2 (natAbs_pos_of_ne a2 (by omega)))
        (scale_den_pos a2.natAbs b2 s2 hb2) h

theorem round_congr (a1 : Int) (b1 : Nat) (s1 : Int) (a2 : Int) (b2 : Nat) (s2 : Int)
    (hb1 : 0 < b1) (hb2 : 0 < b2) (h : exactVal a1 b1 s1 = exactVal a2 b2 s2) :
    (Float64.round a1 b1 s1).val = (Float64.round a2 b2 s2).val :=
  le_antisymm (round_mono _ _ _ _ _ _ hb1 hb2 (le_of_eq h))
    (round_mono _ _ _ _ _ _ hb2 hb1 (le_of_eq h.symm))

theorem roundPos_exact_nat (n : Nat) (hn : 0 < n) (hlt : n < 2 ^ 53) :
    (roundPos n 1).val = (n : ℚ) := by
  obtain ⟨l, _⟩ := binade_spec n 1 hn Nat.one_pos
  have two_ne : (2 : ℚ) ≠ 0 := by norm_num
  have hE : binade n 1 < 53 := by
    by_contra hc
    have h53 : (53 : Int) ≤ binade n 1 := by omega
    have hp : (2 : ℚ) ^ (53 : Int) ≤ (2 : ℚ) ^ binade n 1 :=
      zpow_le_zpow_right₀ (by norm_num) h53
    have hq : (n : ℚ) < (2 : ℚ) ^ (53 : Int) := by
      have : (n : ℚ) < (2 : ℚ) ^ (53 : Nat) := by exact_mod_cast hlt
      rw [← zpow_natCast] at this
      exact this
    simp only [Nat.cast_one, div_one] at l
    linarith
  have hk : 0 ≤ -(binade n 1 - 52) := by omega
  have hs : scale n 1 (-(binade n 1 - 52)) = (n * 2 ^ (-(binade n 1 - 52)).toNat, 1) := by
    unfold scale
    rw [if_pos hk]
  have hm : (roundPos n 1).m = ((n * 2 ^ (-(binade n 1 - 52)).toNat : Nat) : Int) := by
    unfold roundPos
    simp only
    rw [hs]
    simp only
    have := roundHalfEven_exact (n * 2 ^ (-(binade n 1 - 52)).toNat) 1 Nat.one_pos
    rw [Nat.mul_one] at this
    rw [this]
  have he : (roundPos n 1).e = binade n 1 - 52 := rfl
  unfold Float64.val
  rw [hm, he]
  push_cast
  have hz : ((2 : ℚ) ^ (-(binade n 1 - 52)).toNat) = (2 : ℚ) ^ (-(binade n 1 - 52)) := by
    rw [← zpow_natCast, Int.toNat_of_nonneg hk]
  rw [hz, mul_assoc, ← zpow_add₀ two_ne]
  simp

theorem ofInt_val (i : Int) (h1 : -(2 ^ 53) < i) (h2 : i < 2 ^ 53) :
    (Float64.ofInt i).val = (i : ℚ) := by
  unfold Float64.ofInt
  have hsc : ∀ n : Nat, scale n 1 0 = (n, 1) := by
    intro n
    simp [scale]
  rcases lt_trichotomy i 0 with n | z | p
  · rw [round_val_neg i 1 0 n Nat.one_pos, hsc]
    simp only
    have hpos : 0 < i.natAbs := natAbs_pos_of_ne i (by omega)
    have hlt : i.natAbs < 2 ^ 53 := by omega
    rw [roundPos_exact_nat _ hpos hlt]
    rw [natAbs_cast_of_nonpos i (le_of_lt n)]
    ring
  · subst z
    rw [round_zero, val_zero]
    simp
  · rw [round_val_pos i 1 0 p Nat.one_pos, hsc]
    simp only
    have hpos : 0 < i.natAbs := natAbs_pos_of_ne i (by omega)
    have hlt : i.natAbs < 2 ^ 53 := by omega
    rw [roundPos_exact_nat _ hpos hlt]
    rw [natAbs_cast_of_nonneg i (le_of_lt p)]

theorem exactVal_int (i : Int) : exactVal i 1 0 = (i : ℚ) := by
  simp [exactVal]

theorem add_exact (x y : Float64) :
    exactVal (x.m * 2 ^ (x.e - min x.e y.e).toNat + y.m * 2 ^ (y.e - min x.e y.e).toNat) 1
      (min x.e y.e) = x.val + y.val := by
  have two_ne : (2 : ℚ) ≠ 0 := by norm_num
  have k1 : 0 ≤ x.e - min x.e y.e := by
    have := min_le_left x.e y.e
    omega
  have k2 : 0 ≤ y.e - min x.e y.e := by
    have := min_le_right x.e y.e
    omega
  have z1 : ((2 : ℚ) ^ (x.e - min x.e y.e).toNat) * (2 : ℚ) ^ (min x.e y.e) = (2 : ℚ) ^ x.e := by
    rw [← zpow_natCast, Int.toNat_of_nonneg k1, ← zpow_add₀ two_ne]
    congr 1
    ring
  have z2 : ((2 : ℚ) ^ (y.e - min x.e y.e).toNat) * (2 : ℚ) ^ (min x.e y.e) = (2 : ℚ) ^ y.e := by
    rw [← zpow_natCast, Int.toNat_of_nonneg k2, ← zpow_add₀ two_ne]
    congr 1
    ring
  unfold exactVal Float64.val
  push_cast
  rw [div_one, add_mul, mul_assoc, mul_assoc, z1, z2]

theorem add_val_le (x y : Float64) (a : Int) (b : Nat) (s : Int) (hb : 0 < b)
    (h : x.val + y.val ≤ exactVal a b s) :
    (Float64.add x y).val ≤ (Float64.round a b s).val := by
  unfold Float64.add
  simp only
  apply round_mono _ _ _ _ _ _ Nat.one_pos hb
  rw [add_exact]
  exact h

theorem le_add_val (x y : Float64) (a : Int) (b : Nat) (s : Int) (hb : 0 < b)
    (h : exactVal a b s ≤ x.val + y.val) :
    (Float64.round a b s).val ≤ (Float64.add x y).val := by
  unfold Float64.add
  simp only
  apply round_mono _ _ _ _ _ _ hb Nat.one_pos
  rw [add_exact]
  exact h

theorem add_val_mono (x y x2 y2 : Float64) (h : x.val + y.val ≤ x2.val + y2.val) :
    (Float64.add x y).val ≤ (Float64.add x2 y2).val := by
  have e : (Float64.add x2 y2) = Float64.round
      (x2.m * 2 ^ (x2.e - min x2.e y2.e).toNat + y2.m * 2 ^ (y2.e - min x2.e y2.e).toNat) 1
      (min x2.e y2.e) := rfl
  rw [e]
  apply add_val_le _ _ _ _ _ Nat.one_pos
  rw [add_exact]
  exact h

theorem div_exact (x y : Float64) (hy : 0 < y.m) :
    exactVal (x.m * y.m.sign) y.m.natAbs (x.e - y.e) = x.val / y.val := by
  have two_ne : (2 : ℚ) ≠ 0 := by norm_num
  have hm : (y.m : ℚ) ≠ 0 := by
    have : y.m ≠ 0 := by omega
    exact_mod_cast this
  have hp : (2 : ℚ) ^ y.e ≠ 0 := zpow_ne_zero _ two_ne
  unfold exactVal Float64.val
  rw [Int.sign_eq_one_of_pos hy, mul_one, natAbs_cast_of_nonneg y.m (le_of_lt hy),
    zpow_sub₀ two_ne]
  field_simp

theorem toInt64_eq (x : Float64) :
    x.toInt64 = if 0 ≤ x.val then ⌊x.val⌋ else ⌈x.val⌉ := by
  have two_ne : (2 : ℚ) ≠ 0 := by norm_num
  by_cases he : 0 ≤ x.e
  · have hv : x.val = ((x.m * 2 ^ x.e.toNat : Int) : ℚ) := by
      unfold Float64.val
      push_cast
      rw [← zpow_natCast, Int.toNat_of_nonneg he]
    have ht : x.toInt64 = x.m * 2 ^ x.e.toNat := by
      unfold Float64.toInt64
      rw [if_pos he]
    rw [ht, hv]
    split_ifs
    · rw [Int.floor_intCast]
    · rw [Int.ceil_intCast]
  · have hk : 0 ≤ -x.e := by omega
    have hv : x.val = (x.m : ℚ) / (((2 ^ (-x.e).toNat : Nat)) : ℚ) := by
      unfold Float64.val
      push_cast
      rw [← zpow_natCast, Int.toNat_of_nonneg hk, zpow_neg]
      field_simp
    have ht : x.toInt64 = Int.tdiv x.m (2 ^ (-x.e).toNat) := by
      unfold Float64.toInt64
      rw [if_neg he]
    have hdpos : (0 : ℚ) < (((2 ^ (-x.e).toNat : Nat)) : ℚ) := by
      have : 0 < 2 ^ (-x.e).toNat := pow_pos (by norm_num) _
      exact_mod_cast this
    have hd0 : (0 : Int) ≤ ((2 ^ (-x.e).toNat : Nat) : Int) := Int.natCast_nonneg _
    have hcast : ((2 : Int) ^ (-x.e).toNat) = ((2 ^ (-x.e).toNat : Nat) : Int) := by
      push_cast
      rfl
    rw [ht, hv, hcast]
    by_cases hm : 0 ≤ x.m
    · have hnn : (0 : ℚ) ≤ (x.m : ℚ) / (((2 ^ (-x.e).toNat : Nat)) : ℚ) :=
        div_nonneg (by exact_mod_cast hm) (le_of_lt hdpos)
      rw [if_pos hnn, Rat.floor_intCast_div_natCast, Int.tdiv_eq_ediv hm hd0]
    · have hneg : x.m < 0 := by omega
      have hlt : ¬ (0 : ℚ) ≤ (x.m : ℚ) / (((2 ^ (-x.e).toNat : Nat)) : ℚ) := by
        have : (x.m : ℚ) / (((2 ^ (-x.e).toNat : Nat)) : ℚ) < 0 :=
          div_neg_of_neg_of_pos (by exact_mod_cast hneg) hdpos
        linarith
      rw [if_neg hlt]
      have h1 : Int.tdiv x.m ((2 ^ (-x.e).toNat : Nat) : Int) =
          -(Int.tdiv (-x.m) ((2 ^ (-x.e).toNat : Nat) : Int)) := by
        rw [Int.neg_tdiv, neg_neg]
      have hm2 : 0 ≤ -x.m := by omega
      rw [h1, Int.tdiv_eq_ediv hm2 hd0, ← Rat.floor_intCast_div_natCast, ← Int.ceil_neg]
      congr 1
      push_cast
      ring

theorem toInt64_mono (x y : Float64) (h : x.val ≤ y.val) : x.toInt64 ≤ y.toInt64 := by
  rw [toInt64_eq, toInt64_eq]
  by_cases hx : 0 ≤ x.val
  · have hy : 0 ≤ y.val := le_trans hx h
    rw [if_pos hx, if_pos hy]
    exact Int.floor_le_floor h
  · rw [if_neg hx]
    by_cases hy : 0 ≤ y.val
    · rw [if_pos hy]
      have h1 : ⌈x.val⌉ ≤ 0 := by
        rw [Int.ceil_le]
        push_cast
        linarith
      have h2 : 0 ≤ ⌊y.val⌋ := Int.floor_nonneg.mpr hy
      omega
    · rw [if_neg hy]
      exact Int.ceil_le_ceil h

theorem toInt64_of_int (x : Float64) (N : Int) (h : x.val = (N : ℚ)) : x.toInt64 = N := by
  rw [toInt64_eq, h]
  split_ifs
  · exact Int.floor_intCast N
  · exact Int.ceil_intCast N

theorem ofInt_toInt64 (i : Int) (h1 : -(2 ^ 53) < i) (h2 : i < 2 ^ 53) :
    (Float64.ofInt i).toInt64 = i :=
  toInt64_of_int _ i (ofInt_val i h1 h2)

/-! ## Properties of `Duration.Seconds` and `getUptime` -/

theorem minDuration_le_iff (d : Int) :
    minDuration ≤ d ↔ (-9223372036854775808 : Int) ≤ d := by
  have : minDuration = (-9223372036854775808 : Int) := by decide
  rw [this]

theorem le_maxDuration_iff (d : Int) :
    d ≤ maxDuration ↔ d ≤ (9223372036854775807 : Int) := by
  have : maxDuration = (9223372036854775807 : Int) := by decide
  rw [this]

theorem tdiv_tmod_cases (d : Int) :
    (0 ≤ d ∧ Int.tdiv d 1000000000 = d / 1000000000 ∧ Int.tmod d 1000000000 = d % 1000000000) ∨
    (d < 0 ∧ Int.tdiv d 1000000000 = -((-d) / 1000000000) ∧
      Int.tmod d 1000000000 = -((-d) % 1000000000)) := by
  rcases le_or_lt 0 d with h | h
  · left
    exact ⟨h, Int.tdiv_eq_ediv h (by norm_num), Int.tmod_eq_emod h (by norm_num)⟩
  · right
    have hn : 0 ≤ -d := by omega
    have h1 : Int.tdiv d 1000000000 = -(Int.tdiv (-d) 1000000000) := by
      rw [Int.neg_tdiv, neg_neg]
    have h2 : Int.tmod d 1000000000 = -(Int.tmod (-d) 1000000000) := by
      have e1 := Int.tdiv_add_tmod d 1000000000
      have e2 := Int.tdiv_add_tmod (-d) 1000000000
      rw [Int.neg_tdiv] at e2
      omega
    refine ⟨h, ?_, ?_⟩
    · rw [h1, Int.tdiv_eq_ediv hn (by norm_num)]
    · rw [h2, Int.tmod_eq_emod hn (by norm_num)]

theorem ofInt_billion : Float64.ofInt 1000000000 = ⟨8388608000000000, -23⟩ := by
  decide

theorem frac_val (nsec : Int) (h1 : -(2 ^ 53) < nsec) (h2 : nsec < 2 ^ 53) :
    (Float64.div (Float64.ofInt nsec) (Float64.ofInt 1000000000)).val =
      (Float64.round nsec 1000000000 0).val := by
  have hc : (Float64.ofInt 1000000000).val = (1000000000 : ℚ) := by
    have := ofInt_val 1000000000 (by norm_num) (by norm_num)
    exact_mod_cast this
  have hm : 0 < (Float64.ofInt 1000000000).m := by
    rw [ofInt_billion]
    decide
  have hb : 0 < (Float64.ofInt 1000000000).m.natAbs := natAbs_pos_of_ne _ (by omega)
  unfold Float64.div
  apply round_congr _ _ _ _ _ _ hb (by norm_num)
  rw [div_exact _ _ hm, hc, ofInt_val nsec h1 h2]
  simp [exactVal]

theorem frac_mono (n1 n2 : Int) (h : n1 ≤ n2) :
    (Float64.round n1 1000000000 0).val ≤ (Float64.round n2 1000000000 0).val := by
  apply round_mono _ _ _ _ _ _ (by norm_num) (by norm_num)
  unfold exactVal
  have : (n1 : ℚ) ≤ (n2 : ℚ) := by exact_mod_cast h
  simp only [zpow_zero, mul_one]
  exact div_le_div_of_nonneg_right this (by norm_num)

theorem frac_nonneg (n : Int) (h : 0 ≤ n) : 0 ≤ (Float64.round n 1000000000 0).val := by
  have := frac_mono 0 n h
  rw [round_zero, val_zero] at this
  exact this

theorem frac_nonpos (n : Int) (h : n ≤ 0) : (Float64.round n 1000000000 0).val ≤ 0 := by
  have := frac_mono n 0 h
  rw [round_zero, val_zero] at this
  exact this

theorem frac_le_one (n : Int) (h : n ≤ 1000000000) :
    (Float64.round n 1000000000 0).val ≤ 1 := by
  have h1 : (Float64.round n 1000000000 0).val ≤ (Float64.round 1 1 0).val := by
    apply round_mono _ _ _ _ _ _ (by norm_num) (by norm_num)
    unfold exactVal
    have : (n : ℚ) ≤ (1000000000 : ℚ) := by exact_mod_cast h
    simp only [zpow_zero, mul_one, Int.cast_one, Nat.cast_one, div_one]
    rw [div_le_one (by norm_num)]
    exact_mod_cast this
  have h2 : (Float64.round 1 1 0).val = 1 := by
    have := ofInt_val 1 (by norm_num) (by norm_num)
    exact_mod_cast this
  rw [h2] at h1
  exact h1

theorem frac_ge_neg_one (n : Int) (h : -1000000000 ≤ n) :
    -1 ≤ (Float64.round n 1000000000 0).val := by
  have h1 : (Float64.round (-1) 1 0).val ≤ (Float64.round n 1000000000 0).val := by
    apply round_mono _ _ _ _ _ _ (by norm_num) (by norm_num)
    unfold exactVal
    have : (-1000000000 : ℚ) ≤ (n : ℚ) := by exact_mod_cast h
    simp only [zpow_zero, mul_one, Nat.cast_one, div_one]
    rw [le_div_iff₀ (by norm_num)]
    push_cast
    linarith
  have h2 : (Float64.round (-1) 1 0).val = -1 := by
    have := ofInt_val (-1) (by norm_num) (by norm_num)
    exact_mod_cast this
  rw [h2] at h1
  exact h1

/-- The exact sum that `Duration.Seconds` rounds: the whole seconds plus the rounded
fraction. -/
theorem seconds_sum (d : Int) (h1 : minDuration ≤ d) (h2 : d ≤ maxDuration) :
    (Float64.ofInt (Int.tdiv d 1000000000)).val +
      (Float64.div (Float64.ofInt (Int.tmod d 1000000000)) (Float64.ofInt 1000000000)).val =
    ((Int.tdiv d 1000000000 : Int) : ℚ) +
      (Float64.round (Int.tmod d 1000000000) 1000000000 0).val := by
  rw [minDuration_le_iff] at h1
  rw [le_maxDuration_iff] at h2
  have hp : (2 : Int) ^ 53 = 9007199254740992 := by norm_num
  rcases tdiv_tmod_cases d with ⟨h0, hs, hn⟩ | ⟨h0, hs, hn⟩
  · rw [ofInt_val _ (by rw [hp, hs]; omega) (by rw [hp, hs]; omega),
      frac_val _ (by rw [hp, hn]; omega) (by rw [hp, hn]; omega)]
  · rw [ofInt_val _ (by rw [hp, hs]; omega) (by rw [hp, hs]; omega),
      frac_val _ (by rw [hp, hn]; omega) (by rw [hp, hn]; omega)]

theorem Seconds_mono (d1 d2 : Int) (h1 : minDuration ≤ d1) (h : d1 ≤ d2)
    (h2 : d2 ≤ maxDuration) :
    (Duration.Seconds d1).toInt64 ≤ (Duration.Seconds d2).toInt64 := by
  apply toInt64_mono
  unfold Duration.Seconds
  simp only
  apply add_val_mono
  rw [seconds_sum d1 h1 (le_trans h h2), seconds_sum d2 (le_trans h1 h) h2]
  rcases tdiv_tmod_cases d1 with ⟨p1, s1, n1⟩ | ⟨p1, s1, n1⟩ <;>
  rcases tdiv_tmod_cases d2 with ⟨p2, s2, n2⟩ | ⟨p2, s2, n2⟩
  · -- both non-negative
    rcases lt_or_ge (Int.tdiv d1 1000000000) (Int.tdiv d2 1000000000) with hlt | hge
    · have a1 := frac_le_one (Int.tmod d1 1000000000) (by rw [n1]; omega)
      have a2 := frac_nonneg (Int.tmod d2 1000000000) (by rw [n2]; omega)
      have hq : ((Int.tdiv d1 1000000000 : Int) : ℚ) + 1 ≤ ((Int.tdiv d2 1000000000 : Int) : ℚ) := by
        exact_mod_cast hlt
      linarith
    · have heq : Int.tdiv d1 1000000000 = Int.tdiv d2 1000000000 := by
        rw [s1, s2] at hge ⊢
        omega
      have hn : Int.tmod d1 1000000000 ≤ Int.tmod d2 1000000000 := by
        rw [s1, s2] at heq
        rw [n1, n2]
        omega
      have := frac_mono _ _ hn
      rw [heq]
      linarith
  · omega
  · -- d1 negative, d2 non-negative
    have a1 := frac_nonpos (Int.tmod d1 1000000000) (by rw [n1]; omega)
    have a2 := frac_nonneg (Int.tmod d2 1000000000) (by rw [n2]; omega)
    have hs : Int.tdiv d1 1000000000 ≤ Int.tdiv d2 1000000000 := by
      rw [s1, s2]
      omega
    have hq : ((Int.tdiv d1 1000000000 : Int) : ℚ) ≤ ((Int.tdiv d2 1000000000 : Int) : ℚ) := by
      exact_mod_cast hs
    linarith
  · -- both negative
    rcases lt_or_ge (Int.tdiv d1 1000000000) (Int.tdiv d2 1000000000) with hlt | hge
    · have a1 := frac_nonpos (Int.tmod d1 1000000000) (by rw [n1]; omega)
      have a2 := frac_ge_neg_one (Int.tmod d2 1000000000) (by rw [n2]; omega)
      have hq : ((Int.tdiv d1 1000000000 : Int) : ℚ) + 1 ≤ ((Int.tdiv d2 1000000000 : Int) : ℚ) := by
        exact_mod_cast hlt
      linarith
    · have heq : Int.tdiv d1 1000000000 = Int.tdiv d2 1000000000 := by
        rw [s1, s2] at hge ⊢
        omega
      have hn : Int.tmod d1 1000000000 ≤ Int.tmod d2 1000000000 := by
        rw [s1, s2] at heq
        rw [n1, n2]
        omega
      have := frac_mono _ _ hn
      rw [heq]
      linarith

theorem Seconds_zero : (Duration.Seconds 0).toInt64 = 0 := by
  decide

theorem Seconds_nonneg (d : Int) (h0 : 0 ≤ d) (h2 : d ≤ maxDuration) :
    0 ≤ (Duration.Seconds d).toInt64 := by
  have := Seconds_mono 0 d (by decide) h0 h2
  rw [Seconds_zero] at this
  exact this

theorem Seconds_lower (d : Int) (h0 : 0 ≤ d) (h2 : d ≤ maxDuration) :
    d / 1000000000 ≤ (Duration.Seconds d).toInt64 := by
  have h1 : minDuration ≤ d := le_trans (by decide) h0
  have h2i := (le_maxDuration_iff d).mp h2
  have hs : Int.tdiv d 1000000000 = d / 1000000000 := Int.tdiv_eq_ediv h0 (by norm_num)
  have hn : Int.tmod d 1000000000 = d % 1000000000 := Int.tmod_eq_emod h0 (by norm_num)
  have hp : (2 : Int) ^ 53 = 9007199254740992 := by norm_num
  have hb : (Float64.ofInt (d / 1000000000)).toInt64 = d / 1000000000 :=
    ofInt_toInt64 _ (by rw [hp]; omega) (by rw [hp]; omega)
  rw [← hb]
  apply toInt64_mono
  unfold Duration.Seconds Float64.ofInt
  simp only
  apply le_add_val _ _ _ _ _ Nat.one_pos
  have hsum := seconds_sum d h1 h2
  unfold Float64.ofInt at hsum
  rw [hsum, exactVal_int, hs]
  have := frac_nonneg (Int.tmod d 1000000000) (by rw [hn]; omega)
  linarith

theorem Seconds_upper (d : Int) (h0 : 0 ≤ d) (h2 : d ≤ maxDuration) :
    (Duration.Seconds d).toInt64 ≤ d / 1000000000 + 1 := by
  have h1 : minDuration ≤ d := le_trans (by decide) h0
  have h2i := (le_maxDuration_iff d).mp h2
  have hs : Int.tdiv d 1000000000 = d / 1000000000 := Int.tdiv_eq_ediv h0 (by norm_num)
  have hn : Int.tmod d 1000000000 = d % 1000000000 := Int.tmod_eq_emod h0 (by norm_num)
  have hp : (2 : Int) ^ 53 = 9007199254740992 := by norm_num
  have hb : (Float64.ofInt (d / 1000000000 + 1)).toInt64 = d / 1000000000 + 1 :=
    ofInt_toInt64 _ (by rw [hp]; omega) (by rw [hp]; omega)
  rw [← hb]
  apply toInt64_mono
  unfold Duration.Seconds Float64.ofInt
  simp only
  apply add_val_le _ _ _ _ _ Nat.one_pos
  have hsum := seconds_sum d h1 h2
  unfold Float64.ofInt at hsum
  rw [hsum, exactVal_int, hs]
  have := frac_le_one (Int.tmod d 1000000000) (by rw [hn]; omega)
  push_cast
  linarith

theorem Seconds_whole (s : Int) (h0 : 0 ≤ s) (h2 : s ≤ 9223372036) :
    (Duration.Seconds (s * 1000000000)).toInt64 = s := by
  have hd0 : 0 ≤ s * 1000000000 := by omega
  have hd2 : s * 1000000000 ≤ maxDuration := by rw [le_maxDuration_iff]; omega
  have hs : Int.tdiv (s * 1000000000) 1000000000 = s := by
    rw [Int.tdiv_eq_ediv hd0 (by norm_num)]
    omega
  have hn : Int.tmod (s * 1000000000) 1000000000 = 0 := by
    rw [Int.tmod_eq_emod hd0 (by norm_num)]
    omega
  apply toInt64_of_int
  have hp : (2 : Int) ^ 53 = 9007199254740992 := by norm_num
  have hv : (Float64.round s 1 0).val = (s : ℚ) :=
    ofInt_val s (by rw [hp]; omega) (by rw [hp]; omega)
  have hsum := seconds_sum (s * 1000000000) (le_trans (by decide) hd0) hd2
  rw [hs, hn, round_zero, val_zero, add_zero] at hsum
  have hsum2 : (Float64.ofInt s).val +
      (Float64.div (Float64.ofInt 0) (Float64.ofInt 1000000000)).val = exactVal s 1 0 := by
    rw [hsum, exactVal_int]
  unfold Duration.Seconds
  simp only
  rw [hs, hn]
  apply le_antisymm
  · rw [← hv]
    exact add_val_le _ _ _ _ _ Nat.one_pos (le_of_eq hsum2)
  · rw [← hv]
    exact le_add_val _ _ _ _ _ Nat.one_pos (le_of_eq hsum2.symm)

theorem roundPos_exact_dyadic (n k : Nat) (hn : 0 < n) (hlt : n < 2 ^ 53) :
    (roundPos n (2 ^ k)).val = (n : ℚ) / (2 : ℚ) ^ k := by
  have hd : 0 < 2 ^ k := pow_pos (by norm_num) k
  obtain ⟨l, _⟩ := binade_spec n (2 ^ k) hn hd
  have two_ne : (2 : ℚ) ≠ 0 := by norm_num
  have hpk : (0 : ℚ) < (2 : ℚ) ^ k := pow_pos (by norm_num) k
  have hE : binade n (2 ^ k) + (k : Int) < 53 := by
    by_contra hc
    have h53 : (53 : Int) - k ≤ binade n (2 ^ k) := by omega
    have hp : (2 : ℚ) ^ ((53 : Int) - k) ≤ (2 : ℚ) ^ binade n (2 ^ k) :=
      zpow_le_zpow_right₀ (by norm_num) h53
    have hq : (n : ℚ) < (2 : ℚ) ^ (53 : Nat) := by exact_mod_cast hlt
    have hq2 : (n : ℚ) / (2 : ℚ) ^ k < (2 : ℚ) ^ ((53 : Int) - k) := by
      rw [zpow_sub₀ two_ne, zpow_natCast, div_lt_div_iff₀ hpk hpk]
      have : ((2 : ℚ) ^ (53 : Int)) = (2 : ℚ) ^ (53 : Nat) := by norm_cast
      rw [this]
      exact mul_lt_mul_of_pos_right hq hpk
    push_cast at l
    linarith
  have hk : 0 ≤ -(binade n (2 ^ k) - 52) := by omega
  have hj : (k : Int) ≤ -(binade n (2 ^ k) - 52) := by omega
  have hs : scale n (2 ^ k) (-(binade n (2 ^ k) - 52)) =
      (n * 2 ^ (-(binade n (2 ^ k) - 52)).toNat, 2 ^ k) := by
    unfold scale
    rw [if_pos hk]
  have hsplit : (-(binade n (2 ^ k) - 52)).toNat =
      ((-(binade n (2 ^ k) - 52)).toNat - k) + k := by omega
  have hmul : n * 2 ^ (-(binade n (2 ^ k) - 52)).toNat =
      (n * 2 ^ ((-(binade n (2 ^ k) - 52)).toNat - k)) * 2 ^ k := by
    rw [Nat.mul_assoc, ← pow_add, ← hsplit]
  have hm : (roundPos n (2 ^ k)).m =
      ((n * 2 ^ ((-(binade n (2 ^ k) - 52)).toNat - k) : Nat) : Int) := by
    unfold roundPos
    simp only
    rw [hs]
    simp only
    rw [hmul, roundHalfEven_exact _ _ hd]
  have he : (roundPos n (2 ^ k)).e = binade n (2 ^ k) - 52 := rfl
  unfold Float64.val
  rw [hm, he]
  push_cast
  have hcast : (((-(binade n (2 ^ k) - 52)).toNat - k : Nat) : Int) =
      -(binade n (2 ^ k) - 52) - k := by omega
  have hz : ((2 : ℚ) ^ ((-(binade n (2 ^ k) - 52)).toNat - k)) =
      (2 : ℚ) ^ (-(binade n (2 ^ k) - 52) - (k : Int)) := by
    rw [← zpow_natCast, hcast]
  rw [hz, mul_assoc, ← zpow_add₀ two_ne]
  have hexp : -(binade n (2 ^ k) - 52) - (k : Int) + (binade n (2 ^ k) - 52) = -(k : Int) := by
    ring
  rw [hexp, zpow_neg, zpow_natCast]
  field_simp

theorem round_dyadic_val (a : Int) (k : Nat) (h0 : 0 < a) (hlt : a < 2 ^ 53) :
    (Float64.round a 1 (-(k : Int))).val = (a : ℚ) / (2 : ℚ) ^ k := by
  rw [round_val_pos a 1 _ h0 Nat.one_pos]
  have hs : scale a.natAbs 1 (-(k : Int)) = (a.natAbs, 2 ^ k) ∨ k = 0 := by
    by_cases hk : k = 0
    · right; exact hk
    · left
      have hneg : ¬ (0 : Int) ≤ -(k : Int) := by omega
      unfold scale
      rw [if_neg hneg]
      simp
  have hpos : 0 < a.natAbs := natAbs_pos_of_ne a (by omega)
  have hlt2 : a.natAbs < 2 ^ 53 := by omega
  rcases hs with hs | hk
  · rw [hs]
    simp only
    rw [roundPos_exact_dyadic _ _ hpos hlt2, natAbs_cast_of_nonneg a (le_of_lt h0)]
  · subst hk
    have hs0 : scale a.natAbs 1 (-((0 : Nat) : Int)) = (a.natAbs, 2 ^ 0) := by
      simp [scale]
    rw [hs0]
    simp only
    rw [roundPos_exact_dyadic _ _ hpos hlt2, natAbs_cast_of_nonneg a (le_of_lt h0)]

theorem frac_max : Float64.round 999999999 1000000000 0 = ⟨9007199245733793, -53⟩ := by
  decide

theorem frac_le_max (n : Int) (h : n ≤ 999999999) :
    (Float64.round n 1000000000 0).val ≤ 1 - 1 / (2 : ℚ) ^ (30 : Nat) := by
  have h1 := frac_mono n 999999999 h
  have h2 : (Float64.round 999999999 1000000000 0).val ≤ 1 - 1 / (2 : ℚ) ^ (30 : Nat) := by
    rw [frac_max]
    unfold Float64.val
    norm_num
  linarith

theorem Seconds_floor_small (d : Int) (h0 : 0 ≤ d) (hlt : d < 8388608000000000) :
    (Duration.Seconds d).toInt64 = d / 1000000000 := by
  have h2 : d ≤ maxDuration := by rw [le_maxDuration_iff]; omega
  have h1 : minDuration ≤ d := le_trans (by decide) h0
  apply le_antisymm _ (Seconds_lower d h0 h2)
  have hs : Int.tdiv d 1000000000 = d / 1000000000 := Int.tdiv_eq_ediv h0 (by norm_num)
  have hn : Int.tmod d 1000000000 = d % 1000000000 := Int.tmod_eq_emod h0 (by norm_num)
  have hsec0 : 0 ≤ d / 1000000000 := by omega
  have hsec1 : d / 1000000000 < 8388608 := by omega
  have hA0 : 0 < (d / 1000000000 + 1) * 1073741824 - 1 := by omega
  have hA1 : (d / 1000000000 + 1) * 1073741824 - 1 < 2 ^ 53 := by
    have hp : (2 : Int) ^ 53 = 9007199254740992 := by norm_num
    rw [hp]
    omega
  have hv := round_dyadic_val ((d / 1000000000 + 1) * 1073741824 - 1) 30 hA0 hA1
  have hle : (Duration.Seconds d).val ≤
      (Float64.round ((d / 1000000000 + 1) * 1073741824 - 1) 1 (-((30 : Nat) : Int))).val := by
    unfold Duration.Seconds
    simp only
    apply add_val_le _ _ _ _ _ Nat.one_pos
    rw [seconds_sum d h1 h2, hs, hn]
    have hf := frac_le_max (d % 1000000000) (by omega)
    unfold exactVal
    rw [zpow_neg, zpow_natCast]
    push_cast
    have hp : (2 : ℚ) ^ (30 : Nat) = 1073741824 := by norm_num
    rw [hp] at hf ⊢
    have : ((↑(d / 1000000000) + 1) * 1073741824 - 1) / (1 : ℚ) * (1073741824 : ℚ)⁻¹ =
        ↑(d / 1000000000) + (1 - 1 / 1073741824) := by
      field_simp
      ring
    rw [this]
    linarith
  rw [hv] at hle
  have hnn : 0 ≤ (Duration.Seconds d).val := by
    have hz : (Float64.round 0 1 0).val ≤ (Duration.Seconds d).val := by
      unfold Duration.Seconds
      simp only
      apply le_add_val _ _ _ _ _ Nat.one_pos
      rw [seconds_sum d h1 h2, hs, hn, exactVal_zero]
      have hf := frac_nonneg (d % 1000000000) (by omega)
      have : (0 : ℚ) ≤ ((d / 1000000000 : Int) : ℚ) := by exact_mod_cast hsec0
      linarith
    rw [round_zero, val_zero] at hz
    exact hz
  rw [toInt64_eq, if_pos hnn]
  have hlt1 : (Duration.Seconds d).val < ((d / 1000000000 + 1 : Int) : ℚ) := by
    have hp : (2 : ℚ) ^ (30 : Nat) = 1073741824 := by norm_num
    rw [hp] at hle
    push_cast at hle ⊢
    have : ((↑(d / 1000000000) + 1) * 1073741824 - 1) / (1073741824 : ℚ) <
        ↑(d / 1000000000) + 1 := by
      rw [div_lt_iff₀ (by norm_num)]
      linarith
    linarith
  have := Int.floor_lt.mpr hlt1
  omega

theorem Sub_range (t u : Time) : minDuration ≤ Time.Sub t u ∧ Time.Sub t u ≤ maxDuration := by
  have hmm : minDuration ≤ maxDuration := by decide
  unfold Time.Sub
  split_ifs with h1 h2
  · exact ⟨le_refl _, hmm⟩
  · exact ⟨hmm, le_refl _⟩
  · exact ⟨not_lt.mp h1, not_lt.mp h2⟩

theorem Sub_mono (t1 t2 u : Time) (h : t1 ≤ t2) : Time.Sub t1 u ≤ Time.Sub t2 u := by
  have hmm : minDuration ≤ maxDuration := by decide
  have hle : t1 - u ≤ t2 - u := sub_le_sub_right h u
  unfold Time.Sub
  by_cases a1 : t1 - u < minDuration
  · rw [if_pos a1]
    by_cases b1 : t2 - u < minDuration
    · rw [if_pos b1]
    · rw [if_neg b1]
      by_cases b2 : maxDuration < t2 - u
      · rw [if_pos b2]
        exact hmm
      · rw [if_neg b2]
        exact not_lt.mp b1
  · rw [if_neg a1]
    have b1 : ¬ t2 - u < minDuration := not_lt.mpr (le_trans (not_lt.mp a1) hle)
    rw [if_neg b1]
    by_cases a2 : maxDuration < t1 - u
    · rw [if_pos a2, if_pos (lt_of_lt_of_le a2 hle)]
    · rw [if_neg a2]
      by_cases b2 : maxDuration < t2 - u
      · rw [if_pos b2]
        exact not_lt.mp a2
      · rw [if_neg b2]
        exact hle

theorem Sub_nonneg (t u : Time) (h : u ≤ t) : 0 ≤ Time.Sub t u := by
  have h0 : (0 : Int) ≤ t - u := sub_nonneg.mpr h
  have hmin : minDuration ≤ 0 := by decide
  have hmax : 0 ≤ maxDuration := by decide
  unfold Time.Sub
  split_ifs with a1 a2
  · exact absurd (lt_of_le_of_lt h0 a1) (not_lt.mpr hmin)
  · exact hmax
  · exact h0

theorem Sub_eq (t u : Time) (h1 : minDuration ≤ t - u) (h2 : t - u ≤ maxDuration) :
    Time.Sub t u = t - u := by
  unfold Time.Sub
  rw [if_neg (not_lt.mpr h1), if_neg (not_lt.mpr h2)]

theorem toString_natCast (n : Nat) : toString ((n : Nat) : Int) = toString n := rfl

theorem human_of_seconds (x : Int) (s : Nat) (h : x = (s : Int)) :
    toString (Int.tdiv x 3600) ++ " hours, " ++ toString (Int.tdiv (Int.tmod x 3600) 60) ++
      " minutes" = humanOf s := by
  subst h
  have h1 : Int.tdiv (s : Int) 3600 = ((s / 3600 : Nat) : Int) := by
    rw [Int.tdiv_eq_ediv (Int.natCast_nonneg s) (by norm_num)]
    norm_cast
  have h2 : Int.tmod (s : Int) 3600 = ((s % 3600 : Nat) : Int) := by
    rw [Int.tmod_eq_emod (Int.natCast_nonneg s) (by norm_num)]
    norm_cast
  have h3 : Int.tdiv ((s % 3600 : Nat) : Int) 60 = ((s % 3600 / 60 : Nat) : Int) := by
    rw [Int.tdiv_eq_ediv (Int.natCast_nonneg _) (by norm_num)]
    norm_cast
  rw [h1, h2, h3, toString_natCast, toString_natCast]
  rfl

/-- C6: whenever the elapsed whole seconds computed by `getUptime` are a non-negative number
`s`, the human string is the decimal rendering of `floor(s / 3600)`, then " hours, ", then
the decimal rendering of `floor((s mod 3600) / 60)`, then " minutes" (`humanOf s`); every
`s` up to the largest number of seconds a Duration holds is the value computed for an
elapsed time of `s` seconds; and for `s = 3725` the string is "1 hours, 2 minutes". -/
theorem getUptime_human (startTime now : Time) (s : Nat)
    (h : (getUptime startTime now).Seconds = (s : Int)) :
    (getUptime startTime now).Human = humanOf s ∧
    (s ≤ 9223372036 →
      getUptime startTime (startTime + (s : Int) * 1000000000) =
        { Seconds := (s : Int), Human := humanOf s }) ∧
    humanOf 3725 = "1 hours, 2 minutes" ∧
    (getUptime 0 3725000000000).Human = "1 hours, 2 minutes" := by
  refine ⟨?_, ?_, by decide, by decide⟩
  · unfold getUptime at h ⊢
    simp only at h ⊢
    exact human_of_seconds _ s h
  · intro hs
    have hd : Since (startTime + (s : Int) * 1000000000) startTime = (s : Int) * 1000000000 := by
      unfold Since
      have he : startTime + (s : Int) * 1000000000 - startTime = (s : Int) * 1000000000 := by
        ring
      rw [Sub_eq _ _ (by rw [he, minDuration_le_iff]; omega)
        (by rw [he, le_maxDuration_iff]; omega), he]
    have hsec : (Duration.Seconds ((s : Int) * 1000000000)).toInt64 = (s : Int) :=
      Seconds_whole (s : Int) (Int.natCast_nonneg s) (by omega)
    unfold getUptime
    simp only
    rw [hd, hsec, human_of_seconds _ s rfl]

theorem getUptime_human_witness :
    (getUptime 0 3725999999999).Seconds = ((3725 : Nat) : Int) ∧
    (getUptime 0 3725999999999).Human = humanOf 3725 :=
  ⟨by decide, (getUptime_human 0 3725999999999 3725 (by decide)).1⟩

/-- C7, as stated, fails: with the start timestamp at 5 s and a clock reading of 0 s (a wall
clock set back after start-up) the seconds value is -5, which is negative; and with an
elapsed time of 16777216.999999999 s the seconds value is 16777217, one more than the whole
number of elapsed seconds, the sum having been rounded up in float64. -/
theorem getUptime_seconds_counterexample :
    (0 : Time) ≤ 1000000000 ∧
    (getUptime 5000000000 0).Seconds = -5 ∧
    ¬ (0 ≤ (getUptime 5000000000 0).Seconds ∧
        (getUptime 5000000000 0).Seconds ≤ (getUptime 5000000000 1000000000).Seconds) ∧
    (getUptime 0 16777216999999999).Seconds = 16777217 ∧
    (getUptime 0 16777216999999999).Seconds ≠ (16777216999999999 - 0) / 1000000000 := by
  decide

/-- C7, amended: with the clock reading as an explicit input of `getUptime`, for every start
timestamp and every two clock readings `t1 ≤ t2` the seconds values satisfy
`seconds(t1) ≤ seconds(t2)`; if moreover the start timestamp is not after `t1`, then
`0 ≤ seconds(t1)`, and `seconds(t1)` is `floor(d / 10^9)` or `floor(d / 10^9) + 1` for `d`
the nanoseconds `time.Since` returns, which is `t1 - startTime` whenever that fits a
Duration; and it is exactly `floor((t1 - startTime) / 10^9)` when less than `2^23` seconds
have elapsed. -/
theorem getUptime_seconds_spec (startTime t1 t2 : Time) (h : t1 ≤ t2) :
    (getUptime startTime t1).Seconds ≤ (getUptime startTime t2).Seconds ∧
    (startTime ≤ t1 →
      0 ≤ (getUptime startTime t1).Seconds ∧
      (Since t1 startTime) / 1000000000 ≤ (getUptime startTime t1).Seconds ∧
      (getUptime startTime t1).Seconds ≤ (Since t1 startTime) / 1000000000 + 1 ∧
      (t1 - startTime ≤ maxDuration → Since t1 startTime = t1 - startTime) ∧
      (t1 - startTime < 8388608 * 1000000000 →
        (getUptime startTime t1).Seconds = (t1 - startTime) / 1000000000)) := by
  have hs : ∀ t : Time, (getUptime startTime t).Seconds =
      (Duration.Seconds (Since t startTime)).toInt64 := fun _ => rfl
  rw [hs t1, hs t2]
  refine ⟨?_, ?_⟩
  · unfold Since
    exact Seconds_mono _ _ (Sub_range t1 startTime).1 (Sub_mono t1 t2 startTime h)
      (Sub_range t2 startTime).2
  · intro hst
    have h0 : 0 ≤ Since t1 startTime := Sub_nonneg t1 startTime hst
    have h2 : Since t1 startTime ≤ maxDuration := (Sub_range t1 startTime).2
    have hmin : minDuration ≤ t1 - startTime :=
      le_trans (by decide) (sub_nonneg.mpr hst)
    refine ⟨Seconds_nonneg _ h0 h2, Seconds_lower _ h0 h2, Seconds_upper _ h0 h2, ?_, ?_⟩
    · intro hfit
      exact Sub_eq t1 startTime hmin hfit
    · intro hsmall
      have hsmall2 : @LT.lt Int _ (t1 - startTime) 8388608000000000 := hsmall
      have hfit : t1 - startTime ≤ maxDuration := by
        rw [le_maxDuration_iff]
        exact le_of_lt (lt_trans hsmall2 (by norm_num))
      have he : Since t1 startTime = t1 - startTime := Sub_eq t1 startTime hmin hfit
      rw [he]
      exact Seconds_floor_small _ (sub_nonneg.mpr hst) hsmall2

theorem getUptime_seconds_spec_witness :
    (3725000000000 : Time) ≤ 3726000000000 ∧
    (getUptime 0 3725000000000).Seconds ≤ (getUptime 0 3726000000000).Seconds ∧
    0 ≤ (getUptime 0 3725000000000).Seconds :=
  ⟨by decide,
   (getUptime_seconds_spec 0 3725000000000 3726000000000 (by decide)).1,
   ((getUptime_seconds_spec 0 3725000000000 3726000000000 (by decide)).2 (by decide)).1⟩

end AppGo
